import Mathlib

/-!
Shallow embedding of the Prebid.js `multibid` module
(`modules/multibid/index.ts`) and verification of its specification.

JavaScript numbers are modelled as rationals (`ℚ`); the claims under
verification only exercise order comparisons and equalities on finite
decimal values, which `ℚ` represents exactly.  JavaScript objects holding
dynamic keys (`multiConfig`, `multibidUnits`) are modelled as association
lists with replace-or-append update, which reproduces JavaScript's
last-write-wins assignment semantics.  The unique-identifier generator
`getUniqueIdentifierStr` (a random string in the source) is modelled as a
counter-indexed injective generator threaded through the state.
-/

namespace Multibid

/-- One bid response object, restricted to the fields the multibid module
reads or writes.  `floorValue` models `deepAccess(bid, 'floorData.floorValue')`,
`videoContext` models `deepAccess(bid, 'video.context')`, and `multibidPfx`
models the `multibidPrefix` property. -/
structure Bid where
  bidderCode : String
  bidder : String
  requestId : String
  cpm : ℚ
  floorValue : Option ℚ
  videoContext : Option String
  multibidPfx : Option String
  originalBidder : Option String
  originalRequestId : Option String
  targetingBidder : Option String
  deriving DecidableEq

/-- The per-bidder record stored in the module-global `multiConfig` object:
`{maxbids: entry.maxBids, prefix: entry.targetBiddercodePrefix}`. -/
structure BidderLimit where
  maxbids : ℚ
  pfx : Option String
  deriving DecidableEq

/-- The module-global `multiConfig` object, bidder code to limit record. -/
abbrev MultiConfig := List (String × BidderLimit)

/-- Property lookup on `multiConfig`. -/
def lookupBidder : MultiConfig → String → Option BidderLimit
  | [], _ => none
  | (k, v) :: rest, code => if k = code then some v else lookupBidder rest code

/-- JavaScript property assignment `multiConfig[key] = v` (last write wins). -/
def setBidder : MultiConfig → String → BidderLimit → MultiConfig
  | [], k, v => [(k, v)]
  | (k', v') :: rest, k, v =>
    if k' = k then (k, v) :: rest else (k', v') :: setBidder rest k v

/-- JavaScript truthiness of an optional string (`undefined` and `''` are falsy). -/
def truthyStr : Option String → Bool
  | none => false
  | some s => decide (s ≠ "")

/-- JavaScript truthiness of an optional number (`undefined` and `0` are falsy). -/
def truthyNum : Option ℚ → Bool
  | none => false
  | some q => decide (q ≠ 0)

/-- The floor test `(!floor || floor <= bid.cpm)` from line 162 of the module. -/
def floorPass : Option ℚ → ℚ → Bool
  | none, _ => true
  | some f, cpm => if f = 0 then true else decide (f ≤ cpm)

/-- The object stored at `multibidUnits[adUnitCode][bidderCode]`.  `floorRec`
models the `floor` property written at line 178 (and immediately discarded by
the overwrite at line 180); `ads` and `maxReached` model the homonymous
properties. -/
structure AdUnitBids where
  ads : List Bid
  maxReached : Bool
  floorRec : Option ℚ
  deriving DecidableEq

/-- The module-global `multibidUnits` nested object, flattened to a map keyed
by the `(adUnitCode, bidderCode)` pair (the only access pattern the module
uses). -/
abbrev MultibidUnits := List ((String × String) × AdUnitBids)

/-- Model of `deepAccess(multibidUnits, [adUnitCode, bidderCode])`. -/
def getUnit : MultibidUnits → String × String → Option AdUnitBids
  | [], _ => none
  | (k, v) :: rest, key => if k = key then some v else getUnit rest key

/-- Model of `deepSetValue(multibidUnits, [adUnitCode, bidderCode], v)`: replaces the
entire object stored at the path. -/
def setUnit : MultibidUnits → String × String → AdUnitBids → MultibidUnits
  | [], k, v => [(k, v)]
  | (k', v') :: rest, k, v =>
    if k' = k then (k, v) :: rest else (k', v') :: setUnit rest k v

/-- In-place property mutation of the object stored at the key (used for
`multibidUnits[a][b].maxReached = true`). -/
def modifyUnit : MultibidUnits → String × String → (AdUnitBids → AdUnitBids) → MultibidUnits
  | [], _, _ => []
  | (k', v') :: rest, k, f =>
    if k' = k then (k', f v') :: rest else (k', v') :: modifyUnit rest k f

/-- Per-auction mutable state of the module: the `multibidUnits` global plus
the state of the unique-identifier generator. -/
structure MbState where
  units : MultibidUnits
  uidCounter : Nat
  deriving DecidableEq

/-- Model of `getUniqueIdentifierStr()`: the source draws a fresh random identifier;
modelled as an injective counter-indexed generator. -/
def getUniqueIdentifierStr (n : Nat) : String :=
  "mbuid-" ++ toString n

/-- The two diagnostic reasons of the `logWarn` at line 175. -/
inductive RejectReason where
  | maxLimitReached
  | belowFloor
  deriving DecidableEq

/-- Result of one invocation of the `addBidResponse` hook: the state after the
call, the bid object after its in-place mutations, whether the wrapped
function `fn` was invoked with the bid, and the rejection diagnostic if not. -/
structure HookResult where
  st : MbState
  bid : Bid
  forwarded : Bool
  reason : Option RejectReason
  deriving DecidableEq

/-- Lines 145-188: the `addBidResponseHook`.  `hasMultibid` and `mc` are the
module globals; line 148's re-read of the configuration is the identity in
the steady state modelled here (configuration present and unchanged). -/
def addBidResponseHook (hasMultibid : Bool) (mc : MultiConfig)
    (st : MbState) (adUnitCode : String) (bid : Bid) : HookResult :=
  match (if hasMultibid then lookupBidder mc bid.bidderCode else none) with
  | none => { st := st, bid := bid, forwarded := true, reason := none }
  | some conf =>
    if bid.videoContext = some "adpod" then
      { st := st, bid := bid, forwarded := true, reason := none }
    else
      let bid1 : Bid :=
        { bid with
          multibidPfx := if truthyStr conf.pfx then conf.pfx else bid.multibidPfx,
          originalBidder := some bid.bidderCode }
      let key := (adUnitCode, bid.bidderCode)
      match getUnit st.units key with
      | some u =>
        if !u.maxReached && floorPass bid.floorValue bid.cpm then
          let len := u.ads.length + 1
          let bid2 : Bid :=
            { bid1 with
              originalRequestId := some bid1.requestId,
              requestId := getUniqueIdentifierStr st.uidCounter,
              targetingBidder :=
                if truthyStr conf.pfx then some (conf.pfx.getD "" ++ toString len)
                else bid1.targetingBidder }
          let u2 : AdUnitBids :=
            { u with
              ads := u.ads ++ [bid2],
              maxReached := if (len : ℚ) = conf.maxbids then true else u.maxReached }
          { st := { units := setUnit st.units key u2, uidCounter := st.uidCounter + 1 },
            bid := bid2, forwarded := true, reason := none }
        else
          { st := st, bid := bid1, forwarded := false,
            reason := some (if u.maxReached then .maxLimitReached else .belowFloor) }
      | none =>
        let units1 :=
          if truthyNum bid.floorValue then
            setUnit st.units key { ads := [], maxReached := false, floorRec := bid.floorValue }
          else st.units
        let units2 := setUnit units1 key { ads := [bid1], maxReached := false, floorRec := none }
        let units3 :=
          if (1 : ℚ) = conf.maxbids then
            modifyUnit units2 key (fun u => { u with maxReached := true })
          else units2
        { st := { units := units3, uidCounter := st.uidCounter },
          bid := bid1, forwarded := true, reason := none }

/-- Feeds a sequence of `(adUnitCode, bid)` arrivals through the hook in
order, collecting each invocation's result. -/
def runBids (hasMultibid : Bool) (mc : MultiConfig) (st : MbState) :
    List (String × Bid) → MbState × List HookResult
  | [] => (st, [])
  | (a, b) :: rest =>
    let r := addBidResponseHook hasMultibid mc st a b
    let p := runBids hasMultibid mc r.st rest
    (p.1, r :: p.2)

/-- Lines 268-270: `resetMultibidUnits` clears the per-auction bid store (the
identifier generator is a process-wide global and is not reset). -/
def resetMultibidUnits (st : MbState) : MbState :=
  { st with units := [] }

/-- Lines 227-228 inside the sort comparator of `targetBidPoolHook`: restore
`bidderCode := originalBidder` when they differ.  The source performs this
restoration as a comparator side effect while sorting a partition whose
members all share the same `originalBidder`; it is modelled as an upfront
pass over the partition. -/
def restoreBidder (b : Bid) : Bid :=
  match b.originalBidder with
  | some ob => if ob ≠ b.bidderCode then { b with bidderCode := ob } else b
  | none => b

/-- Stable insertion step for the descending-cpm sort (comparator
`bidA.cpm > bidB.cpm ? -1 : bidA.cpm < bidB.cpm ? 1 : 0`, line 229): the
element is placed after every element of strictly greater cpm and before
equal-cpm elements, preserving arrival order among ties. -/
def insertByCpm (x : Bid) : List Bid → List Bid
  | [] => [x]
  | y :: ys => if x.cpm < y.cpm then y :: insertByCpm x ys else x :: y :: ys

/-- Model of `Array.prototype.sort` with the descending-cpm comparator.  ECMAScript
sorts are stable, so any stable algorithm realizes the same list; insertion
sort is used here. -/
def sortByCpmDesc : List Bid → List Bid
  | [] => []
  | x :: xs => insertByCpm x (sortByCpmDesc xs)

/-- The callback of the post-sort `map` at lines 230-237 of
`targetBidPoolHook`: rewrite `bidderCode` to `prefix + (index + 1)` when the
bid's (restored) bidder has a truthy configured prefix and the index is
nonzero and below `maxbids`. -/
def aliasTransform (mc : MultiConfig) (i : Nat) (b : Bid) : Bid :=
  match lookupBidder mc b.bidderCode with
  | some conf =>
    if truthyStr conf.pfx && !decide (i = 0) && decide ((i : ℚ) < conf.maxbids) then
      { b with bidderCode := conf.pfx.getD "" ++ toString (i + 1) }
    else b
  | none => b

/-- The post-sort `map` of lines 230-237, applied with the index of the head
of the remaining list as first argument. -/
def aliasByRank (mc : MultiConfig) : Nat → List Bid → List Bid
  | _, [] => []
  | i, b :: rest => aliasTransform mc i b :: aliasByRank mc (i + 1) rest

/-- Lines 226-238: processing of one `originalBidder` partition of a slot's
bids inside `targetBidPoolHook` — restore original bidder codes, sort by cpm
descending, then re-derive alias codes by post-sort rank. -/
def adjustPartition (mc : MultiConfig) (bids : List Bid) : List Bid :=
  aliasByRank mc 0 (sortByCpmDesc (bids.map restoreBidder))

/-- Lines 194-204: the `sortByMultibid` comparator — bids whose `bidder`
still equals their `bidderCode` (non-aliased) sort before bids whose
effective code was rewritten (aliased). -/
def sortByMultibid (a b : Bid) : Int :=
  if a.bidder ≠ a.bidderCode ∧ b.bidder = b.bidderCode then 1
  else if a.bidder = a.bidderCode ∧ b.bidder ≠ b.bidderCode then -1
  else 0

/-- Stable insertion step for `.sort(sortByMultibid)`: the element is placed
after every element that strictly precedes it under the comparator and
before ties. -/
def insertByAlias (x : Bid) : List Bid → List Bid
  | [] => [x]
  | y :: ys => if sortByMultibid y x < 0 then y :: insertByAlias x ys else x :: y :: ys

/-- Model of `bucketBids.sort(sortByMultibid)` (line 245), as a stable sort. -/
def sortListByMultibid : List Bid → List Bid
  | [] => []
  | x :: xs => insertByAlias x (sortListByMultibid xs)

/-- Lines 243-246 of `targetBidPoolHook` with `dealPrioritization` off: sort
the slot's winner list by cpm descending, re-sort it stably with
`sortByMultibid`, and truncate to `adUnitBidLimit` entries. -/
def limitBucketBids (bucketBids : List Bid) (adUnitBidLimit : Nat) : List Bid :=
  (sortListByMultibid (sortByCpmDesc bucketBids)).take adUnitBidLimit

/-- One outgoing per-bidder request, restricted to the fields the module
touches; `residue` stands for every other field of the request object. -/
structure BidderRequest where
  bidderCode : String
  bidLimit : Option ℚ
  residue : String
  deriving DecidableEq

/-- Lines 115-126: `adjustBidderRequestsHook` — attach `bidLimit := maxbids`
to every request whose bidder has a configured limit; the (mutated) array is
then passed on to the wrapped function unchanged in length and order. -/
def adjustBidderRequestsHook (mc : MultiConfig) (reqs : List BidderRequest) : List BidderRequest :=
  reqs.map fun r =>
    match lookupBidder mc r.bidderCode with
    | some conf => { r with bidLimit := some conf.maxbids }
    | none => r

/-- A JavaScript value as far as `validateMultibid` inspects one: a number,
a string, an array (of bidder-code strings — the only arrays the module
handles), or `undefined` (also covering an absent property). -/
inductive JVal where
  | num (q : ℚ)
  | str (s : String)
  | arr (elems : List String)
  | undef
  deriving DecidableEq

/-- JavaScript truthiness of a `JVal`. -/
def JVal.truthy : JVal → Bool
  | .num q => decide (q ≠ 0)
  | .str s => decide (s ≠ "")
  | .arr _ => true
  | .undef => false

/-- Test `typeof v === 'string'`. -/
def JVal.isStr : JVal → Bool
  | .str _ => true
  | _ => false

/-- Test `Array.isArray(v)`. -/
def JVal.isArr : JVal → Bool
  | .arr _ => true
  | _ => false

/-- One raw configuration entry as submitted to `setConfig({multibid: ...})`.
`tgtPfx` models the optional `targetBiddercodePrefix` string, which
validation never inspects. -/
structure MbEntry where
  bidder : JVal
  bidders : JVal
  maxBids : JVal
  tgtPfx : Option String
  deriving DecidableEq

/-- Line 87: an entry survives the filter when it carries a truthy string
`bidder` or a `bidders` array. -/
def keepEntry (e : MbEntry) : Bool :=
  !((!e.bidder.truthy || !e.bidder.isStr) && (!e.bidders.truthy || !e.bidders.isArr))

/-- Lines 97-98: the `maxBids` coercion — non-numbers and numbers below 1
become 1, numbers above 9 become 9, in-range numbers are untouched. -/
def coerceMax : JVal → JVal
  | .num q => if q < 1 then .num 1 else if 9 < q then .num 9 else .num q
  | _ => .num 1

/-- Whether `maxBids` passes line 97's test unchanged. -/
def maxOk : JVal → Bool
  | .num q => decide (1 ≤ q) && decide (q ≤ 9)
  | _ => false

/-- Lines 83-108: `validateMultibid`, returning the `check` flag and the
filtered-and-coerced entry list (the `duplicate` array that line 105 writes
back through `setConfig` when `check` is false). -/
def validateMultibid (conf : List MbEntry) : Bool × List MbEntry :=
  let kept := conf.filter keepEntry
  (conf.all keepEntry && kept.all (fun e => maxOk e.maxBids),
   kept.map fun e => { e with maxBids := coerceMax e.maxBids })

/-- The numeric value stored as `maxbids`; validated entries always carry a
numeric `maxBids`, so the default is never observed on reachable inputs. -/
def entryMaxNum : JVal → ℚ
  | .num q => q
  | _ => 0

/-- The key under which line 63/69 stores an entry.  Entries reaching this
point have a truthy string `bidder` or an array `bidders`; other shapes are
given a stringification the verified claims never exercise. -/
def jvalKey : JVal → String
  | .str s => s
  | .num q => toString q
  | .arr _ => ""
  | .undef => ""

/-- The `forEach` body of lines 61-75: store one validated entry into the
`multiConfig` object, under its single `bidder` key or spread over its
`bidders` list. -/
def insertEntry (acc : MultiConfig) (e : MbEntry) : MultiConfig :=
  if e.bidder.truthy then
    setBidder acc (jvalKey e.bidder) { maxbids := entryMaxNum e.maxBids, pfx := e.tgtPfx }
  else
    match e.bidders with
    | .arr keys =>
      keys.foldl
        (fun acc2 k => setBidder acc2 k { maxbids := entryMaxNum e.maxBids, pfx := e.tgtPfx })
        acc
    | _ => acc

/-- Lines 61-75: rebuild of the `multiConfig` object from a validated entry
list. -/
def buildMultiConfig (entries : List MbEntry) : MultiConfig :=
  entries.foldl insertEntry []

/-- The module-global configuration cell: the `hasMultibid` flag, the
`multiConfig` object, and the entry list currently held by the host's
configuration store. -/
structure StoredMb where
  hasMultibid : Bool
  multiConfig : MultiConfig
  savedEntries : List MbEntry
  deriving DecidableEq

/-- Lines 55-76 plus the write-back at line 105: one delivery of a
`multibid` configuration to the `config.getConfig` listener.  When
validation fails, `setConfig` synchronously re-delivers the corrected list;
re-validating an already-corrected nonempty list always succeeds
(`validateMultibid_idem` below), so the recursion is unrolled once. -/
def applyMultibidConfig (entries : List MbEntry) (g : StoredMb) : StoredMb :=
  if entries.isEmpty then g
  else
    match validateMultibid entries with
    | (true, _) =>
      { hasMultibid := true, multiConfig := buildMultiConfig entries, savedEntries := entries }
    | (false, corrected) =>
      if corrected.isEmpty then { g with savedEntries := corrected }
      else
        { hasMultibid := true, multiConfig := buildMultiConfig corrected,
          savedEntries := corrected }

/-- A value inside an exported OpenRTB extension record. -/
inductive OrtbVal where
  | num (q : ℚ)
  | str (s : String)
  | strList (l : List String)
  deriving DecidableEq

/-- An OpenRTB request, restricted to the one path the processor writes
(`ext.prebid.multibid`); `residue` stands for every other field. -/
structure OrtbRequest where
  extPrebidMultibid : Option (List (List (String × OrtbVal)))
  residue : String
  deriving DecidableEq

/-- Line 289: `Object.fromEntries(Object.entries(o).map(([k, v]) =>
[k.toLowerCase(), v]))` on one configuration record, modelled on the
record's key-value list in insertion order. -/
def lowercaseKeys (o : List (String × OrtbVal)) : List (String × OrtbVal) :=
  o.map fun kv => (kv.1.toLower, kv.2)

/-- Lines 285-292: `setOrtbExtPrebidMultibid` — when a `multibid`
configuration is present, attach its lowercase-keyed serialization under
`ext.prebid.multibid`; otherwise leave the request untouched.  The function
reads only the configuration (first argument) and no admission or ranking
state. -/
def setOrtbExtPrebidMultibid (mbConf : Option (List (List (String × OrtbVal))))
    (ortbRequest : OrtbRequest) : OrtbRequest :=
  match mbConf with
  | some entries =>
    { ortbRequest with extPrebidMultibid := some (entries.map lowercaseKeys) }
  | none => ortbRequest

/-! ### Concrete builders used by witnesses and counterexamples -/

/-- A plain bid response with the given code, request id, cpm and floor. -/
def mkBid (code rid : String) (c : ℚ) (fl : Option ℚ) : Bid :=
  { bidderCode := code, bidder := code, requestId := rid, cpm := c,
    floorValue := fl, videoContext := none, multibidPfx := none,
    originalBidder := none, originalRequestId := none, targetingBidder := none }

/-- The state at the start of an auction. -/
def emptyState : MbState :=
  { units := [], uidCounter := 0 }

/-! ### Association-list lemmas -/

theorem getUnit_setUnit_self (us : MultibidUnits) (k : String × String) (v : AdUnitBids) :
    getUnit (setUnit us k v) k = some v := by
  induction us with
  | nil => simp [setUnit, getUnit]
  | cons hd t ih =>
    obtain ⟨k', v'⟩ := hd
    by_cases hk : k' = k <;> simp [setUnit, getUnit, hk, ih]

theorem getUnit_modifyUnit_self (us : MultibidUnits) (k : String × String)
    (f : AdUnitBids → AdUnitBids) :
    getUnit (modifyUnit us k f) k = (getUnit us k).map f := by
  induction us with
  | nil => simp [modifyUnit, getUnit]
  | cons hd t ih =>
    obtain ⟨k', v'⟩ := hd
    by_cases hk : k' = k <;> simp [modifyUnit, getUnit, hk, ih]

theorem lookupBidder_setBidder (mcl : MultiConfig) (k : String) (v : BidderLimit)
    (k' : String) :
    lookupBidder (setBidder mcl k v) k' = if k = k' then some v else lookupBidder mcl k' := by
  induction mcl with
  | nil => by_cases h : k = k' <;> simp [setBidder, lookupBidder, h]
  | cons hd t ih =>
    obtain ⟨k0, v0⟩ := hd
    by_cases h0 : k0 = k
    · subst h0
      by_cases h1 : k0 = k' <;> simp [setBidder, lookupBidder, h1]
    · by_cases h1 : k0 = k'
      · subst h1
        have : ¬ k = k0 := fun h => h0 h.symm
        simp [setBidder, lookupBidder, h0, this]
      · simp [setBidder, lookupBidder, h0, h1, ih]

/-! ### Behaviour of a single `addBidResponseHook` invocation -/

/-- First bid of a `(slot, bidder)` pair on the multibid path: always
forwarded; the bid gains `multibidPrefix`/`originalBidder` but keeps its
request id and targeting code; the pair's store is created with exactly this
bid, `maxReached` iff the limit is 1, and no retained floor record (the
line-178 floor write is overwritten by line 180). -/
theorem hook_fresh (mc : MultiConfig) (conf : BidderLimit) (st : MbState)
    (a : String) (bid : Bid)
    (hc : lookupBidder mc bid.bidderCode = some conf)
    (hv : ¬ bid.videoContext = some "adpod")
    (hu : getUnit st.units (a, bid.bidderCode) = none) :
    (addBidResponseHook true mc st a bid).forwarded = true ∧
    (addBidResponseHook true mc st a bid).reason = none ∧
    (addBidResponseHook true mc st a bid).bid =
      { bid with
        multibidPfx := if truthyStr conf.pfx then conf.pfx else bid.multibidPfx,
        originalBidder := some bid.bidderCode } ∧
    (addBidResponseHook true mc st a bid).st.uidCounter = st.uidCounter ∧
    getUnit (addBidResponseHook true mc st a bid).st.units (a, bid.bidderCode) =
      some { ads := [(addBidResponseHook true mc st a bid).bid],
             maxReached := decide ((1 : ℚ) = conf.maxbids), floorRec := none } := by
  by_cases hone : (1 : ℚ) = conf.maxbids
  · simp [addBidResponseHook, hc, hv, hu, hone, getUnit_modifyUnit_self, getUnit_setUnit_self]
  · simp [addBidResponseHook, hc, hv, hu, hone, getUnit_setUnit_self]

/-- A later bid of a pair whose limit is not yet reached and whose own floor
test passes: forwarded with a fresh request id (original preserved), an alias
code `prefix + rank` when a prefix is configured, and appended to the pair's
admitted sequence, whose `maxReached` flag is set exactly when the new length
equals `maxbids`. -/
theorem hook_accept_existing (mc : MultiConfig) (conf : BidderLimit) (st : MbState)
    (a : String) (bid : Bid) (u : AdUnitBids)
    (hc : lookupBidder mc bid.bidderCode = some conf)
    (hv : ¬ bid.videoContext = some "adpod")
    (hu : getUnit st.units (a, bid.bidderCode) = some u)
    (hm : u.maxReached = false)
    (hf : floorPass bid.floorValue bid.cpm = true) :
    (addBidResponseHook true mc st a bid).forwarded = true ∧
    (addBidResponseHook true mc st a bid).reason = none ∧
    (addBidResponseHook true mc st a bid).bid =
      { bid with
        multibidPfx := if truthyStr conf.pfx then conf.pfx else bid.multibidPfx,
        originalBidder := some bid.bidderCode,
        originalRequestId := some bid.requestId,
        requestId := getUniqueIdentifierStr st.uidCounter,
        targetingBidder :=
          if truthyStr conf.pfx then some (conf.pfx.getD "" ++ toString (u.ads.length + 1))
          else bid.targetingBidder } ∧
    (addBidResponseHook true mc st a bid).st.uidCounter = st.uidCounter + 1 ∧
    getUnit (addBidResponseHook true mc st a bid).st.units (a, bid.bidderCode) =
      some { ads := u.ads ++ [(addBidResponseHook true mc st a bid).bid],
             maxReached := decide (((u.ads.length + 1 : ℕ) : ℚ) = conf.maxbids),
             floorRec := u.floorRec } := by
  by_cases hlen : ((u.ads.length + 1 : ℕ) : ℚ) = conf.maxbids
  · simp [addBidResponseHook, hc, hv, hu, hm, hf, hlen, getUnit_setUnit_self]
  · push_cast at hlen
    simp [addBidResponseHook, hc, hv, hu, hm, hf, hlen, getUnit_setUnit_self]

/-- A bid arriving after the pair's `maxReached` flag is set: not forwarded,
diagnostic "max limit reached", state untouched; the bid still gains the
`multibidPrefix`/`originalBidder` mutation applied before the decision. -/
theorem hook_reject_max (mc : MultiConfig) (conf : BidderLimit) (st : MbState)
    (a : String) (bid : Bid) (u : AdUnitBids)
    (hc : lookupBidder mc bid.bidderCode = some conf)
    (hv : ¬ bid.videoContext = some "adpod")
    (hu : getUnit st.units (a, bid.bidderCode) = some u)
    (hm : u.maxReached = true) :
    addBidResponseHook true mc st a bid =
      { st := st,
        bid := { bid with
          multibidPfx := if truthyStr conf.pfx then conf.pfx else bid.multibidPfx,
          originalBidder := some bid.bidderCode },
        forwarded := false, reason := some RejectReason.maxLimitReached } := by
  simp [addBidResponseHook, hc, hv, hu, hm]

/-- A bid arriving below its own (truthy) floor value while the limit is not
reached: not forwarded, diagnostic "below floor", state untouched. -/
theorem hook_reject_floor (mc : MultiConfig) (conf : BidderLimit) (st : MbState)
    (a : String) (bid : Bid) (u : AdUnitBids)
    (hc : lookupBidder mc bid.bidderCode = some conf)
    (hv : ¬ bid.videoContext = some "adpod")
    (hu : getUnit st.units (a, bid.bidderCode) = some u)
    (hm : u.maxReached = false)
    (hf : floorPass bid.floorValue bid.cpm = false) :
    addBidResponseHook true mc st a bid =
      { st := st,
        bid := { bid with
          multibidPfx := if truthyStr conf.pfx then conf.pfx else bid.multibidPfx,
          originalBidder := some bid.bidderCode },
        forwarded := false, reason := some RejectReason.belowFloor } := by
  simp [addBidResponseHook, hc, hv, hu, hm, hf]

/-! ### Runs of the admission hook -/

theorem runBids_length (h : Bool) (mc : MultiConfig) (st : MbState)
    (l : List (String × Bid)) :
    (runBids h mc st l).2.length = l.length := by
  induction l generalizing st with
  | nil => rfl
  | cons hd t ih => simp [runBids, ih]

theorem runBids_append (h : Bool) (mc : MultiConfig) (st : MbState)
    (l1 l2 : List (String × Bid)) :
    runBids h mc st (l1 ++ l2) =
      ((runBids h mc (runBids h mc st l1).1 l2).1,
       (runBids h mc st l1).2 ++ (runBids h mc (runBids h mc st l1).1 l2).2) := by
  induction l1 generalizing st with
  | nil => simp [runBids]
  | cons hd t ih =>
    obtain ⟨a, b⟩ := hd
    simp [runBids, ih]

/-- Invariant run: while the pair's admitted count plus the remaining
arrivals stays within the limit `N` and every arrival is floorless, every
arrival is forwarded and the admitted sequence grows by one per arrival,
with `maxReached` set exactly when the count reaches `N`. -/
theorem runBids_fill (mc : MultiConfig) (conf : BidderLimit) (a p : String) (N : ℕ)
    (hc : lookupBidder mc p = some conf) (hN : conf.maxbids = (N : ℚ)) :
    ∀ (bids : List Bid) (st : MbState) (u : AdUnitBids),
      (∀ b ∈ bids, b.bidderCode = p ∧ b.floorValue = none ∧ b.videoContext ≠ some "adpod") →
      getUnit st.units (a, p) = some u →
      u.maxReached = decide (((u.ads.length : ℕ) : ℚ) = (N : ℚ)) →
      u.ads.length + bids.length ≤ N →
      (∀ r ∈ (runBids true mc st (bids.map (fun b => (a, b)))).2,
        r.forwarded = true ∧ r.reason = none) ∧
      ∃ u', getUnit (runBids true mc st (bids.map (fun b => (a, b)))).1.units (a, p) = some u' ∧
        u'.ads.length = u.ads.length + bids.length ∧
        u'.maxReached = decide (((u.ads.length + bids.length : ℕ) : ℚ) = (N : ℚ)) := by
  intro bids
  induction bids with
  | nil =>
    intro st u _ hu hminv _
    refine ⟨by simp [runBids], u, by simpa using hu, by simp, by simpa using hminv⟩
  | cons b rest ih =>
    intro st u hb hu hminv hbound
    obtain ⟨hbp, hbf, hbv⟩ := hb b (by simp)
    have hlt : u.ads.length < N := by
      have := hbound
      simp only [List.length_cons] at this
      omega
    have hmfalse : u.maxReached = false := by
      rw [hminv, decide_eq_false_iff_not]
      exact_mod_cast Nat.ne_of_lt hlt
    have hfp : floorPass b.floorValue b.cpm = true := by
      rw [hbf]; rfl
    have hc' : lookupBidder mc b.bidderCode = some conf := by rw [hbp]; exact hc
    obtain ⟨hf1, hf2, _, _, hf5⟩ :=
      hook_accept_existing mc conf st a b u hc' hbv (by rw [hbp]; exact hu) hmfalse hfp
    set r := addBidResponseHook true mc st a b with hr
    have hkey : getUnit r.st.units (a, p) =
        some { ads := u.ads ++ [r.bid],
               maxReached := decide (((u.ads.length + 1 : ℕ) : ℚ) = conf.maxbids),
               floorRec := u.floorRec } := by
      rw [← hbp]; exact hf5
    have hrec := ih r.st
      { ads := u.ads ++ [r.bid],
        maxReached := decide (((u.ads.length + 1 : ℕ) : ℚ) = conf.maxbids),
        floorRec := u.floorRec }
      (fun x hx => hb x (by simp [hx])) hkey
      (by simp [hN])
      (by simp only [List.length_append, List.length_cons, List.length_nil] at hbound ⊢
          omega)
    have hrun : runBids true mc st ((b :: rest).map (fun x => (a, x))) =
        ((runBids true mc r.st (rest.map (fun x => (a, x)))).1,
         r :: (runBids true mc r.st (rest.map (fun x => (a, x)))).2) := by
      simp only [List.map_cons, runBids, ← hr]
    rw [hrun]
    refine ⟨?_, ?_⟩
    · intro x hx
      rcases List.mem_cons.mp hx with hx | hx
      · subst hx; exact ⟨hf1, hf2⟩
      · exact hrec.1 x hx
    · obtain ⟨u', hu', hlen', hmax'⟩ := hrec.2
      refine ⟨u', hu', ?_, ?_⟩
      · simp only [List.length_append, List.length_cons, List.length_nil] at hlen' ⊢
        omega
      · rw [hmax']
        have harith : (u.ads ++ [r.bid]).length + rest.length =
            u.ads.length + (b :: rest).length := by
          simp only [List.length_append, List.length_cons, List.length_nil]
          omega
        rw [harith]

/-- Claim C1: for a participant configured with limit `maxBids = N` and any
slot, when `N + 1` floorless non-adpod bids from that participant for that
slot arrive in order, the admission hook forwards the first `N` to the
wrapped function and rejects the `(N+1)`-th with the "max limit reached"
diagnostic, leaving the admitted sequence for the `(slot, participant)` pair
of length exactly `N`. -/
theorem addBidResponse_max_limit (mc : MultiConfig) (conf : BidderLimit)
    (a p : String) (N : ℕ) (bids : List Bid) (st : MbState)
    (hc : lookupBidder mc p = some conf) (hN : conf.maxbids = (N : ℚ)) (hN1 : 1 ≤ N)
    (hlen : bids.length = N + 1)
    (hb : ∀ b ∈ bids, b.bidderCode = p ∧ b.floorValue = none ∧ b.videoContext ≠ some "adpod")
    (hst : getUnit st.units (a, p) = none) :
    (runBids true mc st (bids.map (fun b => (a, b)))).2.length = N + 1 ∧
    (∀ r ∈ (runBids true mc st (bids.map (fun b => (a, b)))).2.take N,
      r.forwarded = true ∧ r.reason = none) ∧
    (∀ r ∈ (runBids true mc st (bids.map (fun b => (a, b)))).2.drop N,
      r.forwarded = false ∧ r.reason = some RejectReason.maxLimitReached) ∧
    ∃ u, getUnit (runBids true mc st (bids.map (fun b => (a, b)))).1.units (a, p) = some u ∧
      u.ads.length = N := by
  match bids, hlen with
  | b0 :: rest, hlen =>
  have hrest : rest.length = N := by simpa using hlen
  rcases rest.eq_nil_or_concat with hnil | ⟨mid, blast, hcat⟩
  · rw [hnil] at hrest; simp at hrest; omega
  rw [List.concat_eq_append] at hcat
  subst hcat
  have hmid : mid.length + 1 = N := by simpa using hrest
  obtain ⟨h0p, h0f, h0v⟩ := hb b0 (by simp)
  have hc0 : lookupBidder mc b0.bidderCode = some conf := by rw [h0p]; exact hc
  obtain ⟨hf1, hf2, _, _, hf5⟩ :=
    hook_fresh mc conf st a b0 hc0 h0v (by rw [h0p]; exact hst)
  set r0 := addBidResponseHook true mc st a b0 with hr0
  have hkey0 : getUnit r0.st.units (a, p) =
      some (AdUnitBids.mk [r0.bid] (decide ((1 : ℚ) = conf.maxbids)) none) := by
    rw [← h0p]; exact hf5
  have hfill := runBids_fill mc conf a p N hc hN mid r0.st
    (AdUnitBids.mk [r0.bid] (decide ((1 : ℚ) = conf.maxbids)) none)
    (fun x hx => hb x (by simp [hx])) hkey0
    (by simp [hN]) (by simp; omega)
  obtain ⟨hmidfwd, u2, hu2, hu2len, hu2max⟩ := hfill
  have hlen1 : (AdUnitBids.mk [r0.bid] (decide ((1 : ℚ) = conf.maxbids)) none).ads.length +
      mid.length = N := by
    simp
    omega
  have hu2len' : u2.ads.length = N := by rw [hu2len]; exact hlen1
  have hu2max' : u2.maxReached = true := by
    rw [hu2max, hlen1]
    simp
  obtain ⟨hLp, hLf, hLv⟩ := hb blast (by simp)
  have hcL : lookupBidder mc blast.bidderCode = some conf := by rw [hLp]; exact hc
  set st2 := (runBids true mc r0.st (mid.map (fun b => (a, b)))).1 with hst2
  have hlast := hook_reject_max mc conf st2 a blast u2 hcL hLv (by rw [hLp]; exact hu2) hu2max'
  have hrun : runBids true mc st ((b0 :: (mid ++ [blast])).map (fun x => (a, x))) =
      ((runBids true mc r0.st ((mid ++ [blast]).map (fun x => (a, x)))).1,
       r0 :: (runBids true mc r0.st ((mid ++ [blast]).map (fun x => (a, x)))).2) := by
    simp only [List.map_cons, runBids, ← hr0]
  have hsplit : runBids true mc r0.st ((mid ++ [blast]).map (fun x => (a, x))) =
      ((runBids true mc st2 [(a, blast)]).1,
       (runBids true mc r0.st (mid.map (fun x => (a, x)))).2 ++
         (runBids true mc st2 [(a, blast)]).2) := by
    rw [List.map_append, runBids_append]
    simp [hst2]
  have hone : runBids true mc st2 [(a, blast)] =
      ((addBidResponseHook true mc st2 a blast).st,
       [addBidResponseHook true mc st2 a blast]) := by
    simp [runBids]
  rw [hrun, hsplit, hone, hlast]
  set midRes := (runBids true mc r0.st (mid.map (fun x => (a, x)))).2 with hmr
  have hmrlen : midRes.length = mid.length := by
    rw [hmr, runBids_length, List.length_map]
  refine ⟨?_, ?_, ?_, u2, ?_, hu2len'⟩
  · simp [hmrlen]; omega
  · intro x hx
    have htk : (r0 :: (midRes ++
        [{ st := st2,
           bid := { blast with
             multibidPfx := if truthyStr conf.pfx then conf.pfx else blast.multibidPfx,
             originalBidder := some blast.bidderCode },
           forwarded := false, reason := some RejectReason.maxLimitReached }])).take N =
        r0 :: midRes := by
      have : N = (r0 :: midRes).length := by simp [hmrlen]; omega
      rw [this]
      rw [show r0 :: (midRes ++ [_]) = (r0 :: midRes) ++ [_] from rfl]
      exact List.take_left _ _
    rw [htk] at hx
    rcases List.mem_cons.mp hx with hx | hx
    · subst hx; exact ⟨hf1, hf2⟩
    · exact hmidfwd x hx
  · intro x hx
    have hdp : (r0 :: (midRes ++
        [{ st := st2,
           bid := { blast with
             multibidPfx := if truthyStr conf.pfx then conf.pfx else blast.multibidPfx,
             originalBidder := some blast.bidderCode },
           forwarded := false, reason := some RejectReason.maxLimitReached }])).drop N =
        [{ st := st2,
           bid := { blast with
             multibidPfx := if truthyStr conf.pfx then conf.pfx else blast.multibidPfx,
             originalBidder := some blast.bidderCode },
           forwarded := false, reason := some RejectReason.maxLimitReached }] := by
      have : N = (r0 :: midRes).length := by simp [hmrlen]; omega
      rw [this]
      rw [show r0 :: (midRes ++ [_]) = (r0 :: midRes) ++ [_] from rfl]
      exact List.drop_left _ _
    rw [hdp] at hx
    simp at hx
    simp [hx]
  · exact hu2

/-- The admission-time floor test passes exactly when the bid does not carry
a truthy floor strictly above its cpm. -/
theorem floorPass_iff (fl : Option ℚ) (cpm : ℚ) :
    floorPass fl cpm = true ↔ ¬ ∃ f, fl = some f ∧ f ≠ 0 ∧ cpm < f := by
  cases fl with
  | none => simp [floorPass]
  | some f =>
    by_cases hf : f = 0
    · simp [floorPass, hf]
    · simp [floorPass, hf, not_lt]

/-- Claim C2, amended: the floor check of the admission hook is per-bid only:
for a pair already present in the per-auction state with `maxReached` still
false, a bid is rejected "below floor" exactly when the bid's own
`floorData.floorValue` is a truthy `F` with `cpm < F` — the floor recorded
from an earlier bid is never consulted (indeed the pair's stored object
created for the first bid retains no floor record, the line-178 write being
overwritten by line 180), and the first bid of a pair is admitted with no
floor check at all. -/
theorem addBidResponse_floor_per_bid (mc : MultiConfig) (conf : BidderLimit)
    (st : MbState) (a : String) (bid : Bid)
    (hc : lookupBidder mc bid.bidderCode = some conf)
    (hv : ¬ bid.videoContext = some "adpod") :
    (getUnit st.units (a, bid.bidderCode) = none →
      (addBidResponseHook true mc st a bid).forwarded = true ∧
      (addBidResponseHook true mc st a bid).reason = none ∧
      ∀ u', getUnit (addBidResponseHook true mc st a bid).st.units (a, bid.bidderCode) =
          some u' → u'.floorRec = none) ∧
    (∀ u, getUnit st.units (a, bid.bidderCode) = some u → u.maxReached = false →
      (((addBidResponseHook true mc st a bid).reason = some RejectReason.belowFloor) ↔
        ∃ f, bid.floorValue = some f ∧ f ≠ 0 ∧ bid.cpm < f) ∧
      ((addBidResponseHook true mc st a bid).forwarded = true ↔
        floorPass bid.floorValue bid.cpm = true)) := by
  constructor
  · intro hu
    obtain ⟨h1, h2, _, _, h5⟩ := hook_fresh mc conf st a bid hc hv hu
    refine ⟨h1, h2, ?_⟩
    intro u' hu'
    rw [h5] at hu'
    cases hu'
    rfl
  · intro u hu hm
    by_cases hfp : floorPass bid.floorValue bid.cpm = true
    · obtain ⟨h1, h2, _, _, _⟩ := hook_accept_existing mc conf st a bid u hc hv hu hm hfp
      rw [h1, h2]
      constructor
      · simp only [false_iff, reduceCtorEq]
        exact (floorPass_iff bid.floorValue bid.cpm).mp hfp
      · simp [hfp]
    · have hfp' : floorPass bid.floorValue bid.cpm = false := by
        simpa using hfp
      rw [hook_reject_floor mc conf st a bid u hc hv hu hm hfp']
      constructor
      · simp only [true_iff]
        by_contra hnone
        exact hfp ((floorPass_iff bid.floorValue bid.cpm).mpr hnone)
      · simp [hfp']

/-- Claim C5, amended: every bid accepted on the multi-bid path records
`originalBidder := bidderCode`; a bid accepted for a pair that already has
state (rank at least 2) additionally receives a freshly generated request id
(the generator state advances, the original id is preserved under
`originalRequestId`) and, when a truthy alias prefix is configured,
`targetingBidder = prefix + rank` with `rank` its 1-based position in the
admitted sequence; the *first* accepted bid of a pair keeps its request id
and its `targetingBidder` untouched. -/
theorem addBidResponse_accept_identity (mc : MultiConfig) (conf : BidderLimit)
    (st : MbState) (a : String) (bid : Bid)
    (hc : lookupBidder mc bid.bidderCode = some conf)
    (hv : ¬ bid.videoContext = some "adpod") :
    (getUnit st.units (a, bid.bidderCode) = none →
      (addBidResponseHook true mc st a bid).forwarded = true ∧
      (addBidResponseHook true mc st a bid).bid.originalBidder = some bid.bidderCode ∧
      (addBidResponseHook true mc st a bid).bid.requestId = bid.requestId ∧
      (addBidResponseHook true mc st a bid).bid.originalRequestId = bid.originalRequestId ∧
      (addBidResponseHook true mc st a bid).bid.targetingBidder = bid.targetingBidder ∧
      (addBidResponseHook true mc st a bid).st.uidCounter = st.uidCounter) ∧
    (∀ u, getUnit st.units (a, bid.bidderCode) = some u → u.maxReached = false →
      floorPass bid.floorValue bid.cpm = true →
      (addBidResponseHook true mc st a bid).forwarded = true ∧
      (addBidResponseHook true mc st a bid).bid.originalBidder = some bid.bidderCode ∧
      (addBidResponseHook true mc st a bid).bid.requestId =
        getUniqueIdentifierStr st.uidCounter ∧
      (addBidResponseHook true mc st a bid).bid.originalRequestId = some bid.requestId ∧
      (addBidResponseHook true mc st a bid).st.uidCounter = st.uidCounter + 1 ∧
      (truthyStr conf.pfx = true →
        (addBidResponseHook true mc st a bid).bid.targetingBidder =
          some (conf.pfx.getD "" ++ toString (u.ads.length + 1))) ∧
      ∀ u', getUnit (addBidResponseHook true mc st a bid).st.units (a, bid.bidderCode) =
          some u' →
        u'.ads = u.ads ++ [(addBidResponseHook true mc st a bid).bid]) := by
  constructor
  · intro hu
    obtain ⟨h1, _, h3, h4, _⟩ := hook_fresh mc conf st a bid hc hv hu
    rw [h3]
    exact ⟨h1, rfl, rfl, rfl, rfl, h4⟩
  · intro u hu hm hfp
    obtain ⟨h1, _, h3, h4, h5⟩ := hook_accept_existing mc conf st a bid u hc hv hu hm hfp
    refine ⟨h1, ?_, ?_, ?_, h4, ?_, ?_⟩
    · rw [h3]
    · rw [h3]
    · rw [h3]
    · intro hpfx
      rw [h3]
      simp [hpfx]
    · intro u' hu'
      rw [h5] at hu'
      cases hu'
      rfl

/-- Claim C10: on the multibid path (non-adpod bid of a configured bidder), the
hook mutates the bid object before deciding: a bid it then rejects still
carries `originalBidder := bidderCode` and the configured `multibidPrefix`,
while its `requestId` and `targetingBidder` are untouched, and a rejection
diagnostic is emitted. -/
theorem addBidResponse_rejected_bid_mutation (mc : MultiConfig) (conf : BidderLimit)
    (st : MbState) (a : String) (bid : Bid)
    (hc : lookupBidder mc bid.bidderCode = some conf)
    (hv : ¬ bid.videoContext = some "adpod")
    (hrej : (addBidResponseHook true mc st a bid).forwarded = false) :
    (addBidResponseHook true mc st a bid).bid.originalBidder = some bid.bidderCode ∧
    (addBidResponseHook true mc st a bid).bid.multibidPfx =
      (if truthyStr conf.pfx then conf.pfx else bid.multibidPfx) ∧
    (addBidResponseHook true mc st a bid).bid.requestId = bid.requestId ∧
    (addBidResponseHook true mc st a bid).bid.targetingBidder = bid.targetingBidder ∧
    ((addBidResponseHook true mc st a bid).reason).isSome = true := by
  cases hu : getUnit st.units (a, bid.bidderCode) with
  | none =>
    obtain ⟨h1, _, _, _, _⟩ := hook_fresh mc conf st a bid hc hv hu
    rw [h1] at hrej
    cases hrej
  | some u =>
    cases hm : u.maxReached with
    | true =>
      rw [hook_reject_max mc conf st a bid u hc hv hu hm]
      exact ⟨rfl, rfl, rfl, rfl, rfl⟩
    | false =>
      cases hfp : floorPass bid.floorValue bid.cpm with
      | true =>
        obtain ⟨h1, _, _, _, _⟩ := hook_accept_existing mc conf st a bid u hc hv hu hm hfp
        rw [h1] at hrej
        cases hrej
      | false =>
        rw [hook_reject_floor mc conf st a bid u hc hv hu hm hfp]
        exact ⟨rfl, rfl, rfl, rfl, rfl⟩

/-- Claim C9: the auction-start reset is idempotent: resetting twice equals
resetting once, and after a reset no `(slot, participant)` pair has any
stored admission state (hence no admitted bids, floor record, or
`maxReached` flag). -/
theorem resetMultibidUnits_idem (st : MbState) :
    resetMultibidUnits (resetMultibidUnits st) = resetMultibidUnits st ∧
    ∀ key, getUnit (resetMultibidUnits st).units key = none := by
  exact ⟨rfl, fun key => rfl⟩

/-! ### Concrete configurations and runs used by witnesses and counterexamples -/

/-- Configuration: bidder "A" limited to 2 bids with alias prefix "pA". -/
def mcPfxA : MultiConfig := [("A", { maxbids := 2, pfx := some "pA" })]

/-- Configuration: bidder "A" limited to 3 bids, no alias prefix. -/
def mcPlainA : MultiConfig := [("A", { maxbids := 3, pfx := none })]

/-- Three floorless arrivals from "A" for slot "s1". -/
def bidsThree : List Bid :=
  [mkBid "A" "r1" 1 none, mkBid "A" "r2" 3 none, mkBid "A" "r3" 2 none]

/-- A state whose pair `("s1", "A")` already holds one admitted bid. -/
def stOneAdmitted : MbState :=
  { units := [(("s1", "A"),
               { ads := [mkBid "A" "r0" 1 none], maxReached := false, floorRec := none })],
    uidCounter := 5 }

/-- A state whose pair `("s1", "A")` holds two admitted bids with the limit
flag already set. -/
def stMaxedOut : MbState :=
  { units := [(("s1", "A"),
               { ads := [mkBid "A" "r0" 1 none, mkBid "A" "r0b" 2 none], maxReached := true,
                 floorRec := none })],
    uidCounter := 9 }

/-- Witness for the C1 theorem: limit 2, three floorless arrivals. -/
theorem addBidResponse_max_limit_witness :
    (lookupBidder mcPfxA "A" = some { maxbids := 2, pfx := some "pA" } ∧
     ({ maxbids := 2, pfx := some "pA" } : BidderLimit).maxbids = ((2 : ℕ) : ℚ) ∧
     1 ≤ 2 ∧
     bidsThree.length = 2 + 1 ∧
     (∀ b ∈ bidsThree,
       b.bidderCode = "A" ∧ b.floorValue = none ∧ b.videoContext ≠ some "adpod") ∧
     getUnit emptyState.units ("s1", "A") = none) ∧
    ((runBids true mcPfxA emptyState (bidsThree.map (fun b => ("s1", b)))).2.length = 2 + 1 ∧
     (∀ r ∈ (runBids true mcPfxA emptyState (bidsThree.map (fun b => ("s1", b)))).2.take 2,
       r.forwarded = true ∧ r.reason = none) ∧
     (∀ r ∈ (runBids true mcPfxA emptyState (bidsThree.map (fun b => ("s1", b)))).2.drop 2,
       r.forwarded = false ∧ r.reason = some RejectReason.maxLimitReached) ∧
     ∃ u, getUnit (runBids true mcPfxA emptyState
         (bidsThree.map (fun b => ("s1", b)))).1.units ("s1", "A") = some u ∧
       u.ads.length = 2) :=
  ⟨⟨by decide, by decide, by decide, by decide, by decide, by decide⟩,
   addBidResponse_max_limit mcPfxA { maxbids := 2, pfx := some "pA" } "s1" "A" 2 bidsThree
     emptyState (by decide) (by decide) (by decide) (by decide) (by decide) (by decide)⟩

/-- Counterexample to claim C2 as stated: with configuration `mcPlainA`, the
first arrival for `("s1", "A")` carries floor 2 and cpm 3 (admitted); the
second arrival carries *no* floor data and cpm 1 < 2, yet it is forwarded
with no rejection — the floor recorded from the earlier bid is never
consulted.  Moreover a first bid whose own cpm 1 lies strictly below its own
floor 2 is also forwarded, against the claimed "exactly when" rule. -/
theorem addBidResponse_recorded_floor_counterexample :
    ((runBids true mcPlainA emptyState
        [("s1", mkBid "A" "r1" 3 (some 2)), ("s1", mkBid "A" "r2" 1 none)]).2.map
      (fun r => (r.forwarded, r.reason))) = [(true, none), (true, none)] ∧
    (mkBid "A" "r1" 3 (some 2)).floorValue = some 2 ∧
    (mkBid "A" "r2" 1 none).cpm < 2 ∧
    ((runBids true mcPlainA emptyState [("s1", mkBid "A" "r1" 1 (some 2))]).2.map
      (fun r => (r.forwarded, r.reason))) = [(true, none)] := by
  decide

/-- Witness for the amended C2 theorem: pair present with `maxReached`
false, bid carrying floor 2 above its cpm 1 — rejected "below floor". -/
theorem addBidResponse_floor_per_bid_witness :
    (lookupBidder mcPlainA "A" = some { maxbids := 3, pfx := none } ∧
     ¬ (mkBid "A" "r2" 1 (some 2)).videoContext = some "adpod") ∧
    ((getUnit stOneAdmitted.units ("s1", "A") = none →
      (addBidResponseHook true mcPlainA stOneAdmitted "s1"
        (mkBid "A" "r2" 1 (some 2))).forwarded = true ∧
      (addBidResponseHook true mcPlainA stOneAdmitted "s1"
        (mkBid "A" "r2" 1 (some 2))).reason = none ∧
      ∀ u', getUnit (addBidResponseHook true mcPlainA stOneAdmitted "s1"
          (mkBid "A" "r2" 1 (some 2))).st.units ("s1", "A") = some u' →
        u'.floorRec = none) ∧
    (∀ u, getUnit stOneAdmitted.units ("s1", "A") = some u → u.maxReached = false →
      (((addBidResponseHook true mcPlainA stOneAdmitted "s1"
          (mkBid "A" "r2" 1 (some 2))).reason = some RejectReason.belowFloor) ↔
        ∃ f, (mkBid "A" "r2" 1 (some 2)).floorValue = some f ∧ f ≠ 0 ∧
          (mkBid "A" "r2" 1 (some 2)).cpm < f) ∧
      ((addBidResponseHook true mcPlainA stOneAdmitted "s1"
          (mkBid "A" "r2" 1 (some 2))).forwarded = true ↔
        floorPass (mkBid "A" "r2" 1 (some 2)).floorValue
          (mkBid "A" "r2" 1 (some 2)).cpm = true))) :=
  ⟨⟨by decide, by decide⟩,
   addBidResponse_floor_per_bid mcPlainA { maxbids := 3, pfx := none } stOneAdmitted "s1"
     (mkBid "A" "r2" 1 (some 2)) (by decide) (by decide)⟩

/-- Counterexample to claim C5 as stated: the *first* bid accepted through the
multi-bid admission path (prefix "pA" configured) keeps its original request
id "r1", gains no `originalRequestId`, and carries no `targetingBidder` —
against the claim that every accepted bid, including the first, is
re-identified and aliased with `prefix + rank`. -/
theorem addBidResponse_first_bid_counterexample :
    ((runBids true mcPfxA emptyState [("s1", mkBid "A" "r1" 1 none)]).2.map
      (fun r => (r.forwarded, r.bid.requestId, r.bid.originalRequestId,
        r.bid.targetingBidder, r.bid.originalBidder))) =
      [(true, "r1", none, none, some "A")] ∧
    ((runBids true mcPfxA emptyState [("s1", mkBid "A" "r1" 1 none)]).2.map
      (fun r => r.bid.targetingBidder)) ≠ [some "pA1"] := by
  decide

/-- Witness for the amended C5 theorem, applied at `stOneAdmitted` (pair
already holding one bid, so the incoming bid is accepted at rank 2). -/
theorem addBidResponse_accept_identity_witness :
    (lookupBidder mcPfxA "A" = some { maxbids := 2, pfx := some "pA" } ∧
     ¬ (mkBid "A" "r9" 4 none).videoContext = some "adpod") ∧
    ((getUnit stOneAdmitted.units ("s1", "A") = none →
      (addBidResponseHook true mcPfxA stOneAdmitted "s1" (mkBid "A" "r9" 4 none)).forwarded
        = true ∧
      (addBidResponseHook true mcPfxA stOneAdmitted "s1"
        (mkBid "A" "r9" 4 none)).bid.originalBidder = some "A" ∧
      (addBidResponseHook true mcPfxA stOneAdmitted "s1"
        (mkBid "A" "r9" 4 none)).bid.requestId = (mkBid "A" "r9" 4 none).requestId ∧
      (addBidResponseHook true mcPfxA stOneAdmitted "s1"
        (mkBid "A" "r9" 4 none)).bid.originalRequestId =
          (mkBid "A" "r9" 4 none).originalRequestId ∧
      (addBidResponseHook true mcPfxA stOneAdmitted "s1"
        (mkBid "A" "r9" 4 none)).bid.targetingBidder =
          (mkBid "A" "r9" 4 none).targetingBidder ∧
      (addBidResponseHook true mcPfxA stOneAdmitted "s1"
        (mkBid "A" "r9" 4 none)).st.uidCounter = stOneAdmitted.uidCounter) ∧
    (∀ u, getUnit stOneAdmitted.units ("s1", "A") = some u → u.maxReached = false →
      floorPass (mkBid "A" "r9" 4 none).floorValue (mkBid "A" "r9" 4 none).cpm = true →
      (addBidResponseHook true mcPfxA stOneAdmitted "s1" (mkBid "A" "r9" 4 none)).forwarded
        = true ∧
      (addBidResponseHook true mcPfxA stOneAdmitted "s1"
        (mkBid "A" "r9" 4 none)).bid.originalBidder = some "A" ∧
      (addBidResponseHook true mcPfxA stOneAdmitted "s1"
        (mkBid "A" "r9" 4 none)).bid.requestId =
          getUniqueIdentifierStr stOneAdmitted.uidCounter ∧
      (addBidResponseHook true mcPfxA stOneAdmitted "s1"
        (mkBid "A" "r9" 4 none)).bid.originalRequestId = some "r9" ∧
      (addBidResponseHook true mcPfxA stOneAdmitted "s1"
        (mkBid "A" "r9" 4 none)).st.uidCounter = stOneAdmitted.uidCounter + 1 ∧
      (truthyStr ({ maxbids := 2, pfx := some "pA" } : BidderLimit).pfx = true →
        (addBidResponseHook true mcPfxA stOneAdmitted "s1"
          (mkBid "A" "r9" 4 none)).bid.targetingBidder =
            some (({ maxbids := 2, pfx := some "pA" } : BidderLimit).pfx.getD "" ++
              toString (u.ads.length + 1))) ∧
      ∀ u', getUnit (addBidResponseHook true mcPfxA stOneAdmitted "s1"
          (mkBid "A" "r9" 4 none)).st.units ("s1", "A") = some u' →
        u'.ads = u.ads ++
          [(addBidResponseHook true mcPfxA stOneAdmitted "s1" (mkBid "A" "r9" 4 none)).bid])) := by
  refine ⟨⟨by decide, by decide⟩, ?_⟩
  have h := addBidResponse_accept_identity mcPfxA { maxbids := 2, pfx := some "pA" }
    stOneAdmitted "s1" (mkBid "A" "r9" 4 none) (by decide) (by decide)
  exact h

/-- Witness for the C10 theorem: a bid arriving after the pair's limit was
reached (rejected) still carries the pre-decision mutations. -/
theorem addBidResponse_rejected_bid_mutation_witness :
    (lookupBidder mcPfxA "A" = some { maxbids := 2, pfx := some "pA" } ∧
     ¬ (mkBid "A" "r8" 7 none).videoContext = some "adpod" ∧
     (addBidResponseHook true mcPfxA
        stMaxedOut "s1"
        (mkBid "A" "r8" 7 none)).forwarded = false) ∧
    ((addBidResponseHook true mcPfxA
        stMaxedOut "s1"
        (mkBid "A" "r8" 7 none)).bid.originalBidder = some "A" ∧
     (addBidResponseHook true mcPfxA
        stMaxedOut "s1"
        (mkBid "A" "r8" 7 none)).bid.multibidPfx =
       (if truthyStr ({ maxbids := 2, pfx := some "pA" } : BidderLimit).pfx then
          ({ maxbids := 2, pfx := some "pA" } : BidderLimit).pfx
        else (mkBid "A" "r8" 7 none).multibidPfx) ∧
     (addBidResponseHook true mcPfxA
        stMaxedOut "s1"
        (mkBid "A" "r8" 7 none)).bid.requestId = "r8" ∧
     (addBidResponseHook true mcPfxA
        stMaxedOut "s1"
        (mkBid "A" "r8" 7 none)).bid.targetingBidder = none ∧
     ((addBidResponseHook true mcPfxA
        stMaxedOut "s1"
        (mkBid "A" "r8" 7 none)).reason).isSome = true) := by
  refine ⟨⟨by decide, by decide, by decide⟩, ?_⟩
  have h := addBidResponse_rejected_bid_mutation mcPfxA { maxbids := 2, pfx := some "pA" }
    stMaxedOut "s1" (mkBid "A" "r8" 7 none) (by decide) (by decide) (by decide)
  exact h


/-! ### The descending-cpm sort -/

theorem length_insertByCpm (x : Bid) (l : List Bid) :
    (insertByCpm x l).length = l.length + 1 := by
  induction l with
  | nil => rfl
  | cons y ys ih => by_cases h : x.cpm < y.cpm <;> simp [insertByCpm, h, ih]

theorem length_sortByCpmDesc (l : List Bid) : (sortByCpmDesc l).length = l.length := by
  induction l with
  | nil => rfl
  | cons x xs ih => simp [sortByCpmDesc, length_insertByCpm, ih]

theorem mem_insertByCpm (b x : Bid) (l : List Bid) :
    b ∈ insertByCpm x l ↔ b = x ∨ b ∈ l := by
  induction l with
  | nil => simp [insertByCpm]
  | cons y ys ih =>
    by_cases h : x.cpm < y.cpm
    · simp only [insertByCpm, if_pos h, List.mem_cons, ih]
      tauto
    · simp only [insertByCpm, if_neg h, List.mem_cons]

theorem mem_sortByCpmDesc (b : Bid) (l : List Bid) :
    b ∈ sortByCpmDesc l ↔ b ∈ l := by
  induction l with
  | nil => simp [sortByCpmDesc]
  | cons x xs ih => simp [sortByCpmDesc, mem_insertByCpm, ih]

/-- Output order of the descending sort: each element bounds every later
element from above in cpm. -/
def CpmSortedDesc (l : List Bid) : Prop :=
  List.Pairwise (fun x y => y.cpm ≤ x.cpm) l

theorem cpmSorted_insertByCpm (x : Bid) (l : List Bid) (h : CpmSortedDesc l) :
    CpmSortedDesc (insertByCpm x l) := by
  induction l with
  | nil => simp [insertByCpm, CpmSortedDesc]
  | cons y ys ih =>
    rcases List.pairwise_cons.mp h with ⟨hy, hys⟩
    by_cases hx : x.cpm < y.cpm
    · simp only [insertByCpm, if_pos hx]
      refine List.pairwise_cons.mpr ⟨?_, ih hys⟩
      intro z hz
      rcases (mem_insertByCpm z x ys).mp hz with rfl | hz
      · exact le_of_lt hx
      · exact hy z hz
    · simp only [insertByCpm, if_neg hx]
      refine List.pairwise_cons.mpr ⟨?_, h⟩
      intro z hz
      rcases List.mem_cons.mp hz with rfl | hz
      · exact not_lt.mp hx
      · exact le_trans (hy z hz) (not_lt.mp hx)

theorem cpmSorted_sortByCpmDesc (l : List Bid) : CpmSortedDesc (sortByCpmDesc l) := by
  induction l with
  | nil => simp [sortByCpmDesc, CpmSortedDesc]
  | cons x xs ih => exact cpmSorted_insertByCpm x _ ih

theorem mem_of_getElemOpt : ∀ (l : List Bid) (i : ℕ) (b : Bid), l[i]? = some b → b ∈ l := by
  intro l
  induction l with
  | nil => intro i b h; simp at h
  | cons x xs ih =>
    intro i b h
    cases i with
    | zero =>
      simp only [List.getElem?_cons_zero, Option.some.injEq] at h
      simp [h]
    | succ j =>
      simp only [List.getElem?_cons_succ] at h
      simp [ih j b h]

theorem cpmSorted_head_max (l : List Bid) (h : CpmSortedDesc l) (i : ℕ)
    (b0 bi : Bid) (h0 : l[0]? = some b0) (hi : l[i]? = some bi) :
    bi.cpm ≤ b0.cpm := by
  cases l with
  | nil => simp at h0
  | cons x xs =>
    simp only [List.getElem?_cons_zero, Option.some.injEq] at h0
    subst h0
    cases i with
    | zero =>
      simp only [List.getElem?_cons_zero, Option.some.injEq] at hi
      rw [hi]
    | succ j =>
      simp only [List.getElem?_cons_succ] at hi
      rcases List.pairwise_cons.mp h with ⟨hx, _⟩
      exact hx bi (mem_of_getElemOpt xs j bi hi)

/-! ### The rank-aliasing pass -/

theorem length_aliasByRank (mc : MultiConfig) (n : ℕ) (l : List Bid) :
    (aliasByRank mc n l).length = l.length := by
  induction l generalizing n with
  | nil => rfl
  | cons b rest ih => simp [aliasByRank, ih]

theorem getElemOpt_aliasByRank (mc : MultiConfig) :
    ∀ (l : List Bid) (n i : ℕ),
      (aliasByRank mc n l)[i]? = (l[i]?).map (aliasTransform mc (n + i)) := by
  intro l
  induction l with
  | nil => intro n i; simp [aliasByRank]
  | cons b rest ih =>
    intro n i
    cases i with
    | zero => simp [aliasByRank]
    | succ j =>
      simp only [aliasByRank, List.getElem?_cons_succ]
      have harith : n + 1 + j = n + (j + 1) := by omega
      rw [ih (n + 1) j, harith]

/-- Evaluation of `aliasTransform` with the bidder's configuration resolved. -/
theorem aliasTransform_of_conf (mc : MultiConfig) (i : ℕ) (b : Bid) (conf : BidderLimit)
    (hbc : lookupBidder mc b.bidderCode = some conf) :
    aliasTransform mc i b =
      if truthyStr conf.pfx && !decide (i = 0) && decide ((i : ℚ) < conf.maxbids) then
        { b with bidderCode := conf.pfx.getD "" ++ toString (i + 1) }
      else b := by
  unfold aliasTransform
  rw [hbc]

theorem cpm_aliasTransform (mc : MultiConfig) (i : ℕ) (b : Bid) :
    (aliasTransform mc i b).cpm = b.cpm := by
  unfold aliasTransform
  cases lookupBidder mc b.bidderCode with
  | none => rfl
  | some conf =>
    by_cases h : (truthyStr conf.pfx && !decide (i = 0) &&
        decide ((i : ℚ) < conf.maxbids)) = true
    · simp [h]
    · simp [h]

theorem map_restore_of_fixed (bids : List Bid)
    (h : ∀ b ∈ bids, restoreBidder b = b) : bids.map restoreBidder = bids := by
  induction bids with
  | nil => rfl
  | cons b rest ih =>
    simp only [List.map_cons, h b (by simp)]
    rw [ih (fun x hx => h x (by simp [hx]))]

/-- Claim C3: for a partition of pool bids all owned by participant `p` (as
`originalBidder`, with `bidderCode` still the admission-time value `p`),
whose configured limit has maxbids `M` and a nonempty alias prefix `s`:
after the value-descending sort, the bid at rank 0 keeps the bare identity
`p`; every bid at rank `r` with `1 ≤ r < M` receives effective identity
`s + (r+1)` (so the assigned suffixes are the strictly increasing integers
2, 3, ... up to `M`); ranks at or beyond `M` keep `p`; and the rank-0 bid
has maximal cpm, so the highest-value bid never carries a suffix. -/
theorem adjustPartition_rank_alias (mc : MultiConfig) (conf : BidderLimit)
    (p s : String) (M : ℕ) (bids : List Bid)
    (hc : lookupBidder mc p = some conf)
    (hpfx : conf.pfx = some s) (hs : s ≠ "")
    (hM : conf.maxbids = (M : ℚ))
    (hb : ∀ b ∈ bids, b.originalBidder = some p ∧ b.bidderCode = p) :
    (adjustPartition mc bids).length = bids.length ∧
    (∀ (i : ℕ) (bi : Bid), (adjustPartition mc bids)[i]? = some bi →
      bi.bidderCode = if i = 0 ∨ M ≤ i then p else s ++ toString (i + 1)) ∧
    (∀ (i : ℕ) (b0 bi : Bid), (adjustPartition mc bids)[0]? = some b0 →
      (adjustPartition mc bids)[i]? = some bi → bi.cpm ≤ b0.cpm) := by
  have hmap : bids.map restoreBidder = bids := by
    apply map_restore_of_fixed
    intro b hbmem
    obtain ⟨hob, hbc⟩ := hb b hbmem
    unfold restoreBidder
    rw [hob]
    simp [hbc]
  have hunfold : adjustPartition mc bids = aliasByRank mc 0 (sortByCpmDesc bids) := by
    unfold adjustPartition
    rw [hmap]
  have hcode : ∀ (j : ℕ) (bj : Bid), (sortByCpmDesc bids)[j]? = some bj →
      bj.bidderCode = p := by
    intro j bj hj
    have hmem : bj ∈ sortByCpmDesc bids := mem_of_getElemOpt _ j bj hj
    exact (hb bj ((mem_sortByCpmDesc bj bids).mp hmem)).2
  refine ⟨?_, ?_, ?_⟩
  · rw [hunfold, length_aliasByRank, length_sortByCpmDesc]
  · intro i bi hbi
    rw [hunfold, getElemOpt_aliasByRank] at hbi
    cases hsi : (sortByCpmDesc bids)[i]? with
    | none => rw [hsi] at hbi; cases hbi
    | some b0 =>
      rw [hsi] at hbi
      simp only [Option.map_some', Option.some.injEq] at hbi
      have hbc : lookupBidder mc b0.bidderCode = some conf := by
        rw [hcode i b0 hsi]; exact hc
      rw [← hbi, Nat.zero_add, aliasTransform_of_conf mc i b0 conf hbc]
      have htru : truthyStr conf.pfx = true := by
        rw [hpfx]
        simpa [truthyStr] using hs
      by_cases hz : i = 0 ∨ M ≤ i
      · have hcond : (truthyStr conf.pfx && !decide (i = 0) &&
            decide ((i : ℚ) < conf.maxbids)) = false := by
          rcases hz with hz | hz
          · simp [hz]
          · have hnlt : ¬ ((i : ℚ) < conf.maxbids) := by
              rw [hM]
              exact_mod_cast not_lt.mpr hz
            simp [hnlt]
        rw [hcond, if_neg (by simp), if_pos hz]
        exact hcode i b0 hsi
      · push_neg at hz
        obtain ⟨hz0, hzM⟩ := hz
        have hlt : ((i : ℚ) < conf.maxbids) := by
          rw [hM]
          exact_mod_cast hzM
        have hcond : (truthyStr conf.pfx && !decide (i = 0) &&
            decide ((i : ℚ) < conf.maxbids)) = true := by
          simp [htru, hz0, hlt]
        rw [hcond, if_pos rfl, if_neg (by push_neg; exact ⟨hz0, hzM⟩), hpfx]
        rfl
  · intro i b0 bi h0 hi
    rw [hunfold, getElemOpt_aliasByRank] at h0 hi
    cases hs0 : (sortByCpmDesc bids)[0]? with
    | none => rw [hs0] at h0; cases h0
    | some c0 =>
      cases hsi : (sortByCpmDesc bids)[i]? with
      | none => rw [hsi] at hi; cases hi
      | some ci =>
        rw [hs0] at h0
        rw [hsi] at hi
        simp only [Option.map_some', Option.some.injEq] at h0 hi
        rw [← h0, ← hi, cpm_aliasTransform, cpm_aliasTransform]
        exact cpmSorted_head_max (sortByCpmDesc bids) (cpmSorted_sortByCpmDesc bids) i c0 ci
          hs0 hsi


/-! ### The alias-aware winner re-sort (C4) -/

theorem sortByMultibid_neg_iff (y x : Bid) :
    sortByMultibid y x < 0 ↔ (y.bidder = y.bidderCode ∧ x.bidder ≠ x.bidderCode) := by
  unfold sortByMultibid
  by_cases h1 : y.bidder ≠ y.bidderCode ∧ x.bidder = x.bidderCode
  · rw [if_pos h1]
    simp only [show ¬ ((1 : Int) < 0) by norm_num, false_iff]
    tauto
  · rw [if_neg h1]
    by_cases h2 : y.bidder = y.bidderCode ∧ x.bidder ≠ x.bidderCode
    · rw [if_pos h2]
      simp only [show ((-1 : Int) < 0) by norm_num, true_iff]
      exact h2
    · rw [if_neg h2]
      simp only [show ¬ ((0 : Int) < 0) by norm_num, false_iff]
      exact h2

theorem insertByAlias_append (x : Bid) (hx : x.bidder ≠ x.bidderCode) :
    ∀ (A B : List Bid), (∀ y ∈ A, y.bidder = y.bidderCode) →
      (∀ y ∈ B, y.bidder ≠ y.bidderCode) →
      insertByAlias x (A ++ B) = A ++ x :: B := by
  intro A
  induction A with
  | nil =>
    intro B _ hB
    cases B with
    | nil => rfl
    | cons y ys =>
      have hy := hB y (by simp)
      simp only [List.nil_append, insertByAlias]
      rw [if_neg]
      rw [sortByMultibid_neg_iff]
      tauto
  | cons a A2 ih =>
    intro B hA hB
    have ha := hA a (by simp)
    simp only [List.cons_append, insertByAlias, List.append_eq]
    rw [if_pos (by rw [sortByMultibid_neg_iff]; exact ⟨ha, hx⟩)]
    rw [ih B (fun y hy => hA y (by simp [hy])) hB]

theorem sortListByMultibid_partition (l : List Bid) :
    sortListByMultibid l =
      l.filter (fun b => decide (b.bidder = b.bidderCode)) ++
        l.filter (fun b => !decide (b.bidder = b.bidderCode)) := by
  induction l with
  | nil => rfl
  | cons x xs ih =>
    by_cases hx : x.bidder = x.bidderCode
    · have hfront : ∀ l2, insertByAlias x l2 = x :: l2 := by
        intro l2
        cases l2 with
        | nil => rfl
        | cons y ys =>
          simp only [insertByAlias]
          rw [if_neg]
          rw [sortByMultibid_neg_iff]
          tauto
      rw [show sortListByMultibid (x :: xs) = insertByAlias x (sortListByMultibid xs) from rfl,
        hfront, ih]
      simp [List.filter, hx]
    · have hA : ∀ y ∈ xs.filter (fun b => decide (b.bidder = b.bidderCode)),
          y.bidder = y.bidderCode := by
        intro y hy
        simpa using List.of_mem_filter hy
      have hB : ∀ y ∈ xs.filter (fun b => !decide (b.bidder = b.bidderCode)),
          y.bidder ≠ y.bidderCode := by
        intro y hy
        simpa using List.of_mem_filter hy
      rw [show sortListByMultibid (x :: xs) = insertByAlias x (sortListByMultibid xs) from rfl,
        ih, insertByAlias_append x hx _ _ hA hB]
      simp [List.filter, hx]

/-- Claim C4, amended: with a positive per-slot result-count limit and
deal-prioritization off, the final winner list for a slot places *all*
non-aliased winners (those whose effective identity still equals their
original `bidder`) before *all* aliased winners — "non-aliased before
aliased" is the primary sort key, not a tie-break among equal values — with
values descending only inside each of the two blocks, and is then truncated
to the first `adUnitBidLimit` entries. -/
theorem limitBucketBids_alias_primary (bucketBids : List Bid) (adUnitBidLimit : ℕ) :
    limitBucketBids bucketBids adUnitBidLimit =
      ((sortByCpmDesc bucketBids).filter (fun b => decide (b.bidder = b.bidderCode)) ++
        (sortByCpmDesc bucketBids).filter
          (fun b => !decide (b.bidder = b.bidderCode))).take adUnitBidLimit ∧
    CpmSortedDesc
      ((sortByCpmDesc bucketBids).filter (fun b => decide (b.bidder = b.bidderCode))) ∧
    CpmSortedDesc
      ((sortByCpmDesc bucketBids).filter (fun b => !decide (b.bidder = b.bidderCode))) := by
  refine ⟨?_, ?_, ?_⟩
  · unfold limitBucketBids
    rw [sortListByMultibid_partition]
  · exact List.Pairwise.sublist (List.filter_sublist _)
      (cpmSorted_sortByCpmDesc bucketBids)
  · exact List.Pairwise.sublist (List.filter_sublist _)
      (cpmSorted_sortByCpmDesc bucketBids)

/-- A non-aliased winner at cpm 5. -/
def bidW1 : Bid := mkBid "x" "w1" 5 none

/-- An aliased winner (bidder "y", effective code "pY2") at cpm 4. -/
def bidW2 : Bid := { mkBid "y" "w2" 4 none with bidderCode := "pY2" }

/-- A non-aliased winner at cpm 3. -/
def bidW3 : Bid := mkBid "z" "w3" 3 none

/-- Counterexample to claim C4 as stated: winners at cpm 5 (non-aliased),
4 (aliased) and 3 (non-aliased) with limit 2 are truncated to cpms
{5, 3} — the aliased 4.0 bid is pushed behind *all* non-aliased bids, not
merely behind equal-valued ones, so the claimed result {5.0, 4.0} does not
hold. -/
theorem limitBucketBids_counterexample :
    (limitBucketBids [bidW1, bidW2, bidW3] 2).map Bid.cpm = [5, 3] ∧
    (limitBucketBids [bidW1, bidW2, bidW3] 2).map Bid.cpm ≠ [5, 4] ∧
    bidW1.bidder = bidW1.bidderCode ∧ bidW2.bidder ≠ bidW2.bidderCode ∧
    bidW3.bidder = bidW3.bidderCode ∧ bidW3.cpm < bidW2.cpm := by
  decide


/-- A pool partition for participant "A": three admitted bids at cpms
1, 3, 2 in arrival order. -/
def poolBidsA : List Bid :=
  [{ mkBid "A" "p1" 1 none with originalBidder := some "A" },
   { mkBid "A" "p2" 3 none with originalBidder := some "A" },
   { mkBid "A" "p3" 2 none with originalBidder := some "A" }]

/-- Witness for the C3 theorem: partition of three bids of "A" (prefix
"pA", maxbids 2). -/
theorem adjustPartition_rank_alias_witness :
    (lookupBidder mcPfxA "A" = some { maxbids := 2, pfx := some "pA" } ∧
     ({ maxbids := 2, pfx := some "pA" } : BidderLimit).pfx = some "pA" ∧
     "pA" ≠ "" ∧
     ({ maxbids := 2, pfx := some "pA" } : BidderLimit).maxbids = ((2 : ℕ) : ℚ) ∧
     (∀ b ∈ poolBidsA, b.originalBidder = some "A" ∧ b.bidderCode = "A")) ∧
    ((adjustPartition mcPfxA poolBidsA).length = poolBidsA.length ∧
     (∀ (i : ℕ) (bi : Bid), (adjustPartition mcPfxA poolBidsA)[i]? = some bi →
       bi.bidderCode = if i = 0 ∨ 2 ≤ i then "A" else "pA" ++ toString (i + 1)) ∧
     (∀ (i : ℕ) (b0 bi : Bid), (adjustPartition mcPfxA poolBidsA)[0]? = some b0 →
       (adjustPartition mcPfxA poolBidsA)[i]? = some bi → bi.cpm ≤ b0.cpm)) :=
  ⟨⟨by decide, by decide, by decide, by decide, by decide⟩,
   adjustPartition_rank_alias mcPfxA { maxbids := 2, pfx := some "pA" } "A" "pA" 2 poolBidsA
     (by decide) (by decide) (by decide) (by decide) (by decide)⟩

/-! ### Request annotation (C7) -/

/-- Claim C7: the request-annotation hook returns the request list unchanged
in length and order; a request whose bidder has a configured limit gets
`bidLimit := maxbids` with every other field intact, any other request is
returned untouched, and with no active configuration the whole list is
untouched.  (The hook then always hands exactly this list to the wrapped
function; it never drops or blocks a request.) -/
theorem adjustBidderRequestsHook_annotates (mc : MultiConfig) (reqs : List BidderRequest) :
    (adjustBidderRequestsHook mc reqs).length = reqs.length ∧
    (∀ (i : ℕ) (r : BidderRequest), reqs[i]? = some r →
      (∀ conf : BidderLimit, lookupBidder mc r.bidderCode = some conf →
        (adjustBidderRequestsHook mc reqs)[i]? =
          some { r with bidLimit := some conf.maxbids }) ∧
      (lookupBidder mc r.bidderCode = none →
        (adjustBidderRequestsHook mc reqs)[i]? = some r)) ∧
    (mc = [] → adjustBidderRequestsHook mc reqs = reqs) := by
  refine ⟨List.length_map _ _, ?_, ?_⟩
  · intro i r hr
    constructor
    · intro conf hconf
      unfold adjustBidderRequestsHook
      rw [List.getElem?_map, hr]
      simp [hconf]
    · intro hnone
      unfold adjustBidderRequestsHook
      rw [List.getElem?_map, hr]
      simp [hnone]
  · intro hmc
    subst hmc
    unfold adjustBidderRequestsHook
    have hid : ∀ r : BidderRequest,
        (match lookupBidder [] r.bidderCode with
         | some conf => { r with bidLimit := some conf.maxbids }
         | none => r) = r := fun r => rfl
    simp only [hid, List.map_id']

/-- Witness for the C7 theorem: two requests, one configured bidder. -/
theorem adjustBidderRequestsHook_annotates_witness :
    ((adjustBidderRequestsHook mcPfxA
       [{ bidderCode := "A", bidLimit := none, residue := "rest1" },
        { bidderCode := "B", bidLimit := none, residue := "rest2" }]).length =
      ([{ bidderCode := "A", bidLimit := none, residue := "rest1" },
        { bidderCode := "B", bidLimit := none, residue := "rest2" }] :
          List BidderRequest).length ∧
     (∀ (i : ℕ) (r : BidderRequest),
       ([{ bidderCode := "A", bidLimit := none, residue := "rest1" },
         { bidderCode := "B", bidLimit := none, residue := "rest2" }] :
           List BidderRequest)[i]? = some r →
       (∀ conf : BidderLimit, lookupBidder mcPfxA r.bidderCode = some conf →
         (adjustBidderRequestsHook mcPfxA
           [{ bidderCode := "A", bidLimit := none, residue := "rest1" },
            { bidderCode := "B", bidLimit := none, residue := "rest2" }])[i]? =
           some { r with bidLimit := some conf.maxbids }) ∧
       (lookupBidder mcPfxA r.bidderCode = none →
         (adjustBidderRequestsHook mcPfxA
           [{ bidderCode := "A", bidLimit := none, residue := "rest1" },
            { bidderCode := "B", bidLimit := none, residue := "rest2" }])[i]? = some r)) ∧
     (mcPfxA = [] → adjustBidderRequestsHook mcPfxA
       [{ bidderCode := "A", bidLimit := none, residue := "rest1" },
        { bidderCode := "B", bidLimit := none, residue := "rest2" }] =
       [{ bidderCode := "A", bidLimit := none, residue := "rest1" },
        { bidderCode := "B", bidLimit := none, residue := "rest2" }])) :=
  adjustBidderRequestsHook_annotates mcPfxA
    [{ bidderCode := "A", bidLimit := none, residue := "rest1" },
     { bidderCode := "B", bidLimit := none, residue := "rest2" }]

/-! ### OpenRTB export (C8) -/

/-- Claim C8: the OpenRTB request processor: with a multibid configuration
present it sets `ext.prebid.multibid` to the configured entry list with each
record's keys lowercased — values untouched, entry order and record field
order untouched — and leaves every other part of the request (`residue`)
unchanged; with no configuration the request is returned identically.  It
reads only the configuration, no admission or ranking state. -/
theorem setOrtbExtPrebidMultibid_spec (mbConf : Option (List (List (String × OrtbVal))))
    (ortbRequest : OrtbRequest) :
    (setOrtbExtPrebidMultibid mbConf ortbRequest).residue = ortbRequest.residue ∧
    (mbConf = none → setOrtbExtPrebidMultibid mbConf ortbRequest = ortbRequest) ∧
    (∀ entries, mbConf = some entries →
      (setOrtbExtPrebidMultibid mbConf ortbRequest).extPrebidMultibid =
        some (entries.map lowercaseKeys) ∧
      ∀ e ∈ entries, (lowercaseKeys e).map Prod.snd = e.map Prod.snd ∧
        (lowercaseKeys e).map Prod.fst = (e.map Prod.fst).map String.toLower) := by
  refine ⟨?_, ?_, ?_⟩
  · cases mbConf <;> rfl
  · intro h
    subst h
    rfl
  · intro entries h
    subst h
    refine ⟨rfl, ?_⟩
    intro e _
    constructor
    · simp [lowercaseKeys]
    · simp [lowercaseKeys]

/-- One configuration record as serialized by the processor. -/
def ortbEntryA : List (String × OrtbVal) :=
  [("bidder", OrtbVal.str "A"), ("maxBids", OrtbVal.num 2),
   ("targetBiddercodePrefix", OrtbVal.str "pA")]

/-- Witness for the C8 theorem: one record with mixed-case keys. -/
theorem setOrtbExtPrebidMultibid_spec_witness :
    ((setOrtbExtPrebidMultibid (some [ortbEntryA])
        { extPrebidMultibid := none, residue := "rest" }).residue =
      ({ extPrebidMultibid := none, residue := "rest" } : OrtbRequest).residue ∧
     ((some [ortbEntryA] : Option (List (List (String × OrtbVal)))) = none →
       setOrtbExtPrebidMultibid (some [ortbEntryA])
         { extPrebidMultibid := none, residue := "rest" } =
         { extPrebidMultibid := none, residue := "rest" }) ∧
     (∀ entries, (some [ortbEntryA] : Option (List (List (String × OrtbVal)))) =
         some entries →
       (setOrtbExtPrebidMultibid (some [ortbEntryA])
         { extPrebidMultibid := none, residue := "rest" }).extPrebidMultibid =
         some (entries.map lowercaseKeys) ∧
       ∀ e ∈ entries, (lowercaseKeys e).map Prod.snd = e.map Prod.snd ∧
         (lowercaseKeys e).map Prod.fst = (e.map Prod.fst).map String.toLower)) :=
  setOrtbExtPrebidMultibid_spec (some [ortbEntryA])
    { extPrebidMultibid := none, residue := "rest" }


/-! ### Configuration validation (C6) -/

theorem maxOk_num_bounds (v : JVal) (h : maxOk v = true) :
    ∃ q, v = JVal.num q ∧ 1 ≤ q ∧ q ≤ 9 := by
  cases v with
  | num q =>
    simp only [maxOk, Bool.and_eq_true, decide_eq_true_eq] at h
    exact ⟨q, rfl, h.1, h.2⟩
  | str s => simp [maxOk] at h
  | arr l => simp [maxOk] at h
  | undef => simp [maxOk] at h

theorem maxOk_coerceMax (v : JVal) : maxOk (coerceMax v) = true := by
  cases v with
  | num q =>
    by_cases h1 : q < 1
    · simp [coerceMax, maxOk, h1]
    · by_cases h9 : 9 < q
      · simp [coerceMax, maxOk, h1, h9]
      · push_neg at h1 h9
        simp [coerceMax, maxOk, not_lt.mpr h1, not_lt.mpr h9, h1, h9]
  | str s => simp [coerceMax, maxOk]
  | arr l => simp [coerceMax, maxOk]
  | undef => simp [coerceMax, maxOk]

theorem coerceMax_of_ok (v : JVal) (h : maxOk v = true) : coerceMax v = v := by
  obtain ⟨q, rfl, h1, h9⟩ := maxOk_num_bounds v h
  simp [coerceMax, not_lt.mpr h1, not_lt.mpr h9]

theorem entryMaxNum_bounds (v : JVal) (h : maxOk v = true) :
    1 ≤ entryMaxNum v ∧ entryMaxNum v ≤ 9 := by
  obtain ⟨q, rfl, h1, h9⟩ := maxOk_num_bounds v h
  exact ⟨h1, h9⟩

/-- Invariance: `keepEntry` depends only on the `bidder`/`bidders` fields, so the
`maxBids` coercion never changes an entry's filter outcome. -/
theorem keepEntry_coerce (e : MbEntry) :
    keepEntry { e with maxBids := coerceMax e.maxBids } = keepEntry e := rfl

/-- Re-validating the written-back corrected list always succeeds and leaves
it unchanged — this justifies unrolling the re-entrant `setConfig` delivery
once in `applyMultibidConfig`. -/
theorem validateMultibid_idem (conf : List MbEntry) :
    validateMultibid (validateMultibid conf).2 = (true, (validateMultibid conf).2) := by
  unfold validateMultibid
  simp only []
  have hkeep : ∀ e ∈ (List.filter keepEntry conf).map
      (fun e => { e with maxBids := coerceMax e.maxBids }), keepEntry e = true := by
    intro e he
    obtain ⟨e0, he0, rfl⟩ := List.mem_map.mp he
    rw [keepEntry_coerce]
    exact List.of_mem_filter he0
  have hfilter : ((List.filter keepEntry conf).map
      (fun e => { e with maxBids := coerceMax e.maxBids })).filter keepEntry =
      (List.filter keepEntry conf).map (fun e => { e with maxBids := coerceMax e.maxBids }) :=
    List.filter_eq_self.mpr hkeep
  have hmax : ∀ e ∈ (List.filter keepEntry conf).map
      (fun e => { e with maxBids := coerceMax e.maxBids }), maxOk e.maxBids = true := by
    intro e he
    obtain ⟨e0, he0, rfl⟩ := List.mem_map.mp he
    exact maxOk_coerceMax e0.maxBids
  rw [hfilter, Prod.mk.injEq]
  refine ⟨?_, ?_⟩
  · rw [Bool.and_eq_true]
    exact ⟨List.all_eq_true.mpr hkeep, List.all_eq_true.mpr hmax⟩
  · have : ∀ e ∈ (List.filter keepEntry conf).map
        (fun e => { e with maxBids := coerceMax e.maxBids }),
        { e with maxBids := coerceMax e.maxBids } = e := by
      intro e he
      rw [coerceMax_of_ok e.maxBids (hmax e he)]
    calc ((List.filter keepEntry conf).map
          (fun e => { e with maxBids := coerceMax e.maxBids })).map
            (fun e => { e with maxBids := coerceMax e.maxBids })
        = ((List.filter keepEntry conf).map
            (fun e => { e with maxBids := coerceMax e.maxBids })).map id := by
          apply List.map_congr_left
          intro e he
          rw [this e he]
          rfl
      _ = _ := List.map_id _

theorem applyMultibidConfig_valid (conf : List MbEntry) (g : StoredMb)
    (hne : conf ≠ []) (htrue : (validateMultibid conf).1 = true) :
    applyMultibidConfig conf g =
      { hasMultibid := true, multiConfig := buildMultiConfig conf,
        savedEntries := conf } := by
  unfold applyMultibidConfig
  rw [if_neg (by simpa using hne)]
  have hpair : validateMultibid conf = (true, (validateMultibid conf).2) := by
    rw [← htrue]
  rw [hpair]

theorem applyMultibidConfig_invalid (conf : List MbEntry) (g : StoredMb)
    (hne : conf ≠ []) (hfalse : (validateMultibid conf).1 = false) :
    applyMultibidConfig conf g =
      (if (validateMultibid conf).2.isEmpty then
        { g with savedEntries := (validateMultibid conf).2 }
       else
        { hasMultibid := true, multiConfig := buildMultiConfig (validateMultibid conf).2,
          savedEntries := (validateMultibid conf).2 }) := by
  unfold applyMultibidConfig
  rw [if_neg (by simpa using hne)]
  have hpair : validateMultibid conf = (false, (validateMultibid conf).2) := by
    rw [← hfalse]
  rw [hpair]

theorem lookupBidder_foldl_setBidder (v : BidderLimit) :
    ∀ (keys : List String) (acc : MultiConfig) (k : String) (lim : BidderLimit),
      lookupBidder (keys.foldl (fun a kk => setBidder a kk v) acc) k = some lim →
      lim = v ∨ lookupBidder acc k = some lim := by
  intro keys
  induction keys with
  | nil => intro acc k lim h; exact Or.inr h
  | cons kk rest ih =>
    intro acc k lim h
    rcases ih (setBidder acc kk v) k lim h with h1 | h1
    · exact Or.inl h1
    · rw [lookupBidder_setBidder] at h1
      by_cases hk : kk = k
      · rw [if_pos hk] at h1
        cases h1
        exact Or.inl rfl
      · rw [if_neg hk] at h1
        exact Or.inr h1

theorem lookupBidder_insertEntry (acc : MultiConfig) (e : MbEntry) (k : String)
    (lim : BidderLimit) (h : lookupBidder (insertEntry acc e) k = some lim) :
    lim = { maxbids := entryMaxNum e.maxBids, pfx := e.tgtPfx } ∨
      lookupBidder acc k = some lim := by
  unfold insertEntry at h
  by_cases hb : e.bidder.truthy = true
  · rw [if_pos hb, lookupBidder_setBidder] at h
    by_cases hk : jvalKey e.bidder = k
    · rw [if_pos hk] at h
      cases h
      exact Or.inl rfl
    · rw [if_neg hk] at h
      exact Or.inr h
  · rw [if_neg hb] at h
    cases harr : e.bidders with
    | arr keys =>
      rw [harr] at h
      exact lookupBidder_foldl_setBidder _ keys acc k lim h
    | num q => rw [harr] at h; exact Or.inr h
    | str s2 => rw [harr] at h; exact Or.inr h
    | undef => rw [harr] at h; exact Or.inr h

theorem lookupBidder_buildMultiConfig_aux :
    ∀ (entries : List MbEntry) (acc : MultiConfig) (k : String) (lim : BidderLimit),
      lookupBidder (entries.foldl insertEntry acc) k = some lim →
      (∃ e ∈ entries, lim = { maxbids := entryMaxNum e.maxBids, pfx := e.tgtPfx }) ∨
        lookupBidder acc k = some lim := by
  intro entries
  induction entries with
  | nil => intro acc k lim h; exact Or.inr h
  | cons e rest ih =>
    intro acc k lim h
    rcases ih (insertEntry acc e) k lim h with h1 | h1
    · obtain ⟨e2, he2, heq⟩ := h1
      exact Or.inl ⟨e2, by simp [he2], heq⟩
    · rcases lookupBidder_insertEntry acc e k lim h1 with h2 | h2
      · exact Or.inl ⟨e, by simp, h2⟩
      · exact Or.inr h2

theorem lookupBidder_buildMultiConfig (entries : List MbEntry) (k : String)
    (lim : BidderLimit) (h : lookupBidder (buildMultiConfig entries) k = some lim) :
    ∃ e ∈ entries, lim = { maxbids := entryMaxNum e.maxBids, pfx := e.tgtPfx } := by
  rcases lookupBidder_buildMultiConfig_aux entries [] k lim h with h1 | h1
  · exact h1
  · simp [lookupBidder] at h1


/-- Claim C6: validation and the configuration listener: (1) every
entry of the corrected list carries a numeric `maxBids` in `[1, 9]`;
(2) the corrected list is exactly the surviving (bidder-bearing) entries
with `maxBids` coerced; (3) the coercion maps a missing/non-numeric or
below-1 value to 1, an above-9 value to 9, and keeps in-range values;
(4) the returned flag is `true` exactly when no entry was dropped and no
`maxBids` needed coercion; (5) on flagged-invalid nonvacuous input the
corrected configuration is the one written back and stored; and (6) any
limit found in the stored `multiConfig` that is not left over from the
previous generation has its `maxbids` in `[1, 9]`. -/
theorem validateMultibid_clamps (conf : List MbEntry) (g : StoredMb) :
    (∀ e ∈ (validateMultibid conf).2, ∃ q, e.maxBids = JVal.num q ∧ 1 ≤ q ∧ q ≤ 9) ∧
    (∀ (i : ℕ) (e e' : MbEntry), (conf.filter keepEntry)[i]? = some e →
      (validateMultibid conf).2[i]? = some e' →
      e' = { e with maxBids := coerceMax e.maxBids }) ∧
    (∀ v : JVal,
      ((∀ q : ℚ, v ≠ JVal.num q) → coerceMax v = JVal.num 1) ∧
      (∀ q : ℚ, v = JVal.num q → q < 1 → coerceMax v = JVal.num 1) ∧
      (∀ q : ℚ, v = JVal.num q → 9 < q → coerceMax v = JVal.num 9) ∧
      (∀ q : ℚ, v = JVal.num q → 1 ≤ q → q ≤ 9 → coerceMax v = v)) ∧
    ((validateMultibid conf).1 = true ↔
      ∀ e ∈ conf, keepEntry e = true ∧ maxOk e.maxBids = true) ∧
    ((validateMultibid conf).1 = false → conf ≠ [] → (validateMultibid conf).2 ≠ [] →
      applyMultibidConfig conf g =
        { hasMultibid := true,
          multiConfig := buildMultiConfig (validateMultibid conf).2,
          savedEntries := (validateMultibid conf).2 }) ∧
    (∀ (k : String) (lim : BidderLimit),
      lookupBidder (applyMultibidConfig conf g).multiConfig k = some lim →
      lookupBidder g.multiConfig k = some lim ∨ (1 ≤ lim.maxbids ∧ lim.maxbids ≤ 9)) := by
  have hsnd : (validateMultibid conf).2 =
      (conf.filter keepEntry).map (fun e => { e with maxBids := coerceMax e.maxBids }) := rfl
  have hfst : (validateMultibid conf).1 =
      (conf.all keepEntry && (conf.filter keepEntry).all (fun e => maxOk e.maxBids)) := rfl
  have hbounds : ∀ e ∈ (validateMultibid conf).2,
      ∃ q, e.maxBids = JVal.num q ∧ 1 ≤ q ∧ q ≤ 9 := by
    intro e he
    rw [hsnd] at he
    obtain ⟨e0, _, rfl⟩ := List.mem_map.mp he
    exact maxOk_num_bounds _ (maxOk_coerceMax e0.maxBids)
  have hiff : (validateMultibid conf).1 = true ↔
      ∀ e ∈ conf, keepEntry e = true ∧ maxOk e.maxBids = true := by
    rw [hfst, Bool.and_eq_true]
    constructor
    · rintro ⟨hall, hflt⟩ e he
      refine ⟨List.all_eq_true.mp hall e he, ?_⟩
      exact List.all_eq_true.mp hflt e
        (List.mem_filter.mpr ⟨he, List.all_eq_true.mp hall e he⟩)
    · intro h
      refine ⟨List.all_eq_true.mpr (fun e he => (h e he).1), ?_⟩
      refine List.all_eq_true.mpr (fun e he => ?_)
      exact (h e (List.mem_filter.mp he).1).2
  refine ⟨hbounds, ?_, ?_, hiff, ?_, ?_⟩
  · intro i e e' he he'
    rw [hsnd, List.getElem?_map, he] at he'
    simp only [Option.map_some', Option.some.injEq] at he'
    exact he'.symm
  · intro v
    refine ⟨?_, ?_, ?_, ?_⟩
    · intro hnum
      cases v with
      | num q => exact absurd rfl (hnum q)
      | str s2 => rfl
      | arr l => rfl
      | undef => rfl
    · rintro q rfl hq
      simp [coerceMax, hq]
    · rintro q rfl hq
      have h1 : ¬ q < 1 := by
        push_neg
        linarith
      simp [coerceMax, h1, hq]
    · rintro q rfl h1 h9
      simp [coerceMax, not_lt.mpr h1, not_lt.mpr h9]
  · intro hfalse hne hcne
    rw [applyMultibidConfig_invalid conf g hne hfalse,
      if_neg (by simpa [List.isEmpty_iff] using hcne)]
  · intro k lim hlim
    by_cases hne : conf = []
    · subst hne
      exact Or.inl hlim
    · cases hval : (validateMultibid conf).1 with
      | true =>
        rw [applyMultibidConfig_valid conf g hne hval] at hlim
        obtain ⟨e, he, rfl⟩ := lookupBidder_buildMultiConfig conf k lim hlim
        exact Or.inr (entryMaxNum_bounds e.maxBids ((hiff.mp hval e he).2))
      | false =>
        rw [applyMultibidConfig_invalid conf g hne hval] at hlim
        by_cases hemp : (validateMultibid conf).2.isEmpty = true
        · rw [if_pos hemp] at hlim
          exact Or.inl hlim
        · rw [if_neg hemp] at hlim
          obtain ⟨e, he, rfl⟩ := lookupBidder_buildMultiConfig _ k lim hlim
          obtain ⟨q, hq, h1, h9⟩ := hbounds e he
          refine Or.inr ?_
          rw [hq]
          exact ⟨h1, h9⟩

/-- Valid-looking entry with an out-of-range `maxBids` of 12. -/
def entA12 : MbEntry :=
  { bidder := JVal.str "A", bidders := JVal.undef, maxBids := JVal.num 12, tgtPfx := none }

/-- Entry naming two bidders with `maxBids` absent. -/
def entBC : MbEntry :=
  { bidder := JVal.undef, bidders := JVal.arr ["B", "C"], maxBids := JVal.undef,
    tgtPfx := some "p" }

/-- Malformed entry (falsy bidder, no bidders list): dropped by the filter. -/
def entBad : MbEntry :=
  { bidder := JVal.num 0, bidders := JVal.undef, maxBids := JVal.num 5, tgtPfx := none }

/-- The configuration state before any delivery. -/
def gEmpty : StoredMb := { hasMultibid := false, multiConfig := [], savedEntries := [] }

/-- Witness for the C6 theorem at a configuration needing a drop and both
coercion directions. -/
theorem validateMultibid_clamps_witness :
    (∀ e ∈ (validateMultibid [entA12, entBC, entBad]).2,
      ∃ q, e.maxBids = JVal.num q ∧ 1 ≤ q ∧ q ≤ 9) ∧
    (∀ (i : ℕ) (e e' : MbEntry),
      (([entA12, entBC, entBad].filter keepEntry))[i]? = some e →
      (validateMultibid [entA12, entBC, entBad]).2[i]? = some e' →
      e' = { e with maxBids := coerceMax e.maxBids }) ∧
    (∀ v : JVal,
      ((∀ q : ℚ, v ≠ JVal.num q) → coerceMax v = JVal.num 1) ∧
      (∀ q : ℚ, v = JVal.num q → q < 1 → coerceMax v = JVal.num 1) ∧
      (∀ q : ℚ, v = JVal.num q → 9 < q → coerceMax v = JVal.num 9) ∧
      (∀ q : ℚ, v = JVal.num q → 1 ≤ q → q ≤ 9 → coerceMax v = v)) ∧
    ((validateMultibid [entA12, entBC, entBad]).1 = true ↔
      ∀ e ∈ [entA12, entBC, entBad], keepEntry e = true ∧ maxOk e.maxBids = true) ∧
    ((validateMultibid [entA12, entBC, entBad]).1 = false →
      [entA12, entBC, entBad] ≠ [] →
      (validateMultibid [entA12, entBC, entBad]).2 ≠ [] →
      applyMultibidConfig [entA12, entBC, entBad] gEmpty =
        { hasMultibid := true,
          multiConfig := buildMultiConfig (validateMultibid [entA12, entBC, entBad]).2,
          savedEntries := (validateMultibid [entA12, entBC, entBad]).2 }) ∧
    (∀ (k : String) (lim : BidderLimit),
      lookupBidder (applyMultibidConfig [entA12, entBC, entBad] gEmpty).multiConfig k =
        some lim →
      lookupBidder gEmpty.multiConfig k = some lim ∨
        (1 ≤ lim.maxbids ∧ lim.maxbids ≤ 9)) :=
  validateMultibid_clamps [entA12, entBC, entBad] gEmpty

end Multibid
